import Mathlib

/-!
# Expense tracker (`src/scrpit.js`): a shallow embedding of class `ExpenseTracker`

Modelling conventions.

* A finite JavaScript number is given by the rational it denotes.  Where the class does
  arithmetic (`updateBalance`, `updateCategoryStats`) the result is a `JSNumber`: the exact
  result rounded to the nearest IEEE 754 double, ties to even, with overflow to an
  infinity and with `NaN`; the two zeros are not told apart.  The amount read by
  `parseFloat` is a `JSNum`: `NaN` or a finite number.
* A transaction is a well-typed record: the seven fields written by `addTransaction`, with
  strings for `description`, `category`, `type`, `date`, `timestamp` and numbers for `id`
  and `amount`.  The field values themselves are arbitrary.
* What the class reads from the page (form fields, `confirm`, the clock) is an explicit
  argument; what it writes for the user (`showNotification`) is returned as an `Outcome`.
* The `transactions` slot of `localStorage` is seen through `JSON.parse`: a text is
  identified with the JSON value it denotes, or is unparsable.  `State` is the tracker
  whose collection holds well-typed records; `RawState` is the tracker as the constructor
  and `importData` leave it, with any JSON value in `this.transactions`.
* Calls that only touch the page (`updateDisplay`, `resetForm`, the modal's CSS class) are
  left out of the state-changing methods.
-/

set_option autoImplicit false

namespace ExpenseTracker

/-! ## Data model -/

/-- One element of `this.transactions`, as built at lines 87-95.  The amount is a finite
number, given by the rational it denotes. -/
structure Transaction where
  id : Int
  description : String
  amount : ℚ
  category : String
  type : String
  date : String
  timestamp : String
  deriving DecidableEq, Repr


/-! ## JavaScript values at the JSON boundary -/

/-- Result of `parseFloat` on a form field: `NaN`, or a finite number. -/
inductive JSNum where
  | nan
  | fin (q : ℚ)
  deriving DecidableEq, Repr

/-! ## JavaScript numbers: IEEE 754 doubles -/

/-- A JavaScript number: `NaN`, an infinity, or a finite value, given by the rational it
denotes (`+0` and `-0` are one value). -/
inductive JSNumber where
  | nan
  | negInf
  | posInf
  | fin (q : ℚ)
  deriving DecidableEq, Repr

/-- Number of halvings that bring `n` below 2, on at most `fuel` steps. -/
def log2Aux : ℕ → ℕ → ℕ
  | 0, _ => 0
  | fuel + 1, n => if n < 2 then 0 else log2Aux fuel (n / 2) + 1

/-- The position of the highest set bit of a positive natural number: `⌊log₂ n⌋`. -/
def log2 (n : ℕ) : ℕ := log2Aux n n

/-- The binary exponent `⌊log₂ (a / d)⌋` of a positive fraction: `log2 a - log2 d` or one
less, whichever power of two is still at most `a / d`. -/
def floorLog2 (a d : ℕ) : ℤ :=
  let k : ℤ := (log2 a : ℤ) - (log2 d : ℤ)
  if d * 2 ^ k.toNat ≤ a * 2 ^ (-k).toNat then k else k - 1

/-- The integer nearest to `n / d`, a tie going to the even one. -/
def roundHalfEven (n d : ℕ) : ℕ :=
  let f := n / d
  let rem := n % d
  if 2 * rem < d then f else if d < 2 * rem then f + 1 else if f % 2 = 0 then f else f + 1

/-- The positive fraction `a / d` rounded to 53 significant bits (fewer below `2^-1022`,
where the spacing stays `2^-1074`): with `e` the binary exponent, not below `-1022`, the
result is the multiple of `2^(e - 52)` nearest to `a / d`, ties to even. -/
def roundMagnitude (a d : ℕ) : ℚ :=
  let e : ℤ := if floorLog2 a d < -1022 then -1022 else floorLog2 a d
  let m := roundHalfEven (a * 2 ^ (52 - e).toNat) (d * 2 ^ (e - 52).toNat)
  ((m * 2 ^ (e - 52).toNat : ℕ) : ℚ) / ((2 ^ (52 - e).toNat : ℕ) : ℚ)

/-- The bound `2^1024`: a rounded magnitude that reaches it overflows to an infinity. -/
def overflowThreshold : ℚ := ((2 ^ 1024 : ℕ) : ℚ)

/-- Rounding of an exact result to a double (round to nearest, ties to even), as every
arithmetic operation of JavaScript does. -/
def roundDouble (q : ℚ) : JSNumber :=
  if q = 0 then .fin 0
  else if 0 < q then
    (if overflowThreshold ≤ roundMagnitude q.num.natAbs q.den then .posInf
     else .fin (roundMagnitude q.num.natAbs q.den))
  else
    (if overflowThreshold ≤ roundMagnitude q.num.natAbs q.den then .negInf
     else .fin (-roundMagnitude q.num.natAbs q.den))

/-- Unary minus. -/
def JSNumber.neg : JSNumber → JSNumber
  | .nan => .nan
  | .negInf => .posInf
  | .posInf => .negInf
  | .fin q => .fin (-q)

/-- The operator `+` on numbers. -/
def JSNumber.add : JSNumber → JSNumber → JSNumber
  | .nan, _ => .nan
  | _, .nan => .nan
  | .posInf, .negInf => .nan
  | .negInf, .posInf => .nan
  | .posInf, _ => .posInf
  | _, .posInf => .posInf
  | .negInf, _ => .negInf
  | _, .negInf => .negInf
  | .fin a, .fin b => roundDouble (a + b)

/-- The operator `-` on numbers. -/
def JSNumber.sub (a b : JSNumber) : JSNumber :=
  a.add b.neg

/-- The test `x > 0`. -/
def JSNumber.isPositive : JSNumber → Bool
  | .posInf => true
  | .fin q => decide (0 < q)
  | _ => false

/-- Rank of the four kinds of number, for the order below. -/
def JSNumber.level : JSNumber → ℤ
  | .nan => 0
  | .negInf => 1
  | .fin _ => 2
  | .posInf => 3

/-- The rational of a finite number, 0 for the others. -/
def JSNumber.value : JSNumber → ℚ
  | .fin q => q
  | _ => 0

/-- The order `a ≤ b` of numbers: `-Infinity` below the finite numbers in their usual order
below `Infinity`.  `NaN` is put below everything only to make the order total. -/
def JSNumber.le (a b : JSNumber) : Prop :=
  a.level < b.level ∨ (a.level = b.level ∧ a.value ≤ b.value)

instance (a b : JSNumber) : Decidable (a.le b) := by
  unfold JSNumber.le
  infer_instance

/-- The smallest positive double, `2^-1074`. -/
def minDouble : ℚ := 1 / 2 ^ 1074

/-- The rational is an integer multiple of `2^-1074`, as every finite double is. -/
def OnGrid (q : ℚ) : Prop := ∃ n : ℤ, q = n * minDouble

/-- The number is an infinity or a finite multiple of `2^-1074`. -/
def JSNumber.Regular (x : JSNumber) : Prop :=
  x = .posInf ∨ x = .negInf ∨ ∃ q, x = .fin q ∧ OnGrid q

/-- The rational is a double: rounding leaves it as it is. -/
def Representable (q : ℚ) : Prop :=
  roundDouble q = .fin q

instance (q : ℚ) : Decidable (Representable q) := by
  unfold Representable
  infer_instance

/-- A value that `JSON.parse` can return. -/
inductive JSValue where
  | null
  | bool (b : Bool)
  | num (q : ℚ)
  | str (s : String)
  | arr (xs : List JSValue)
  | obj (fields : List (String × JSValue))
  deriving Repr

/-- JavaScript truthiness of a JSON value, as used by the `||` operator. -/
def JSValue.truthy : JSValue → Bool
  | .null => false
  | .bool b => b
  | .num q => q != 0
  | .str s => s != ""
  | .arr _ => true
  | .obj _ => true

/-- The test `Array.isArray(v)`. -/
def JSValue.isArray : JSValue → Bool
  | .arr _ => true
  | _ => false

/-- What `JSON.parse` does with a text: it throws `SyntaxError`, or returns a value. -/
inductive Parsed where
  | syntaxError
  | value (v : JSValue)
  deriving Repr

/-- Content of the `transactions` slot of `localStorage`: nothing (then `getItem` returns
`null`), or a text, which is identified by what `JSON.parse` makes of it. -/
inductive Slot where
  | absent
  | text (p : Parsed)
  deriving Repr

/-- The object that `JSON.stringify` writes for a transaction (and `JSON.parse` reads back). -/
def Transaction.toJS (t : Transaction) : JSValue :=
  .obj [("id", .num t.id), ("description", .str t.description), ("amount", .num t.amount),
    ("category", .str t.category), ("type", .str t.type), ("date", .str t.date),
    ("timestamp", .str t.timestamp)]

/-- The last thing a method did for the user: a call of `showNotification(message, type)`,
or nothing at all (a bare `return`, or falling off the end without a notification). -/
inductive Outcome where
  | notified (message : String) (type : String)
  | silent
  deriving DecidableEq, Repr

/-! ## Strings -/

/-- White space and line terminators of ECMAScript, the characters `String.prototype.trim`
removes. -/
def isJSWhiteSpace (c : Char) : Bool :=
  c.val == 0x09 || c.val == 0x0A || c.val == 0x0B || c.val == 0x0C || c.val == 0x0D ||
  c.val == 0x20 || c.val == 0xA0 || c.val == 0x1680 || (0x2000 ≤ c.val && c.val ≤ 0x200A) ||
  c.val == 0x2028 || c.val == 0x2029 || c.val == 0x202F || c.val == 0x205F ||
  c.val == 0x3000 || c.val == 0xFEFF

/-- The method `String.prototype.trim`. -/
def trim (s : String) : String :=
  String.mk ((s.data.dropWhile isJSWhiteSpace).reverse.dropWhile isJSWhiteSpace).reverse

/-- Whether `sub` occurs in `s` as a contiguous run, on character lists. -/
def includesChars (sub : List Char) : List Char → Bool
  | [] => sub.isEmpty
  | c :: s => sub.isPrefixOf (c :: s) || includesChars sub s

/-- The method `String.prototype.includes`. -/
def includes (s sub : String) : Bool :=
  includesChars sub.data s.data

/-- Lower-casing of ASCII letters; `String.prototype.toLowerCase` agrees with it on ASCII
text.  Used to run `renderTransactions` on concrete records. -/
def asciiToLowerCase (s : String) : String :=
  String.mk (s.data.map Char.toLower)

/-! ## State of the class -/

/-- Fields of an `ExpenseTracker` instance together with the `transactions` slot of
`localStorage`. -/
structure State where
  transactions : List Transaction
  currentFilter : String
  editingId : Option Int
  storage : Slot

/-- What `addTransaction` and `saveEdit` read from their form (lines 76-80 and 122-126):
the raw text of the description field, the result of `parseFloat` on the amount field, and
the values of the category, type and date fields. -/
structure Form where
  description : String
  amount : JSNum
  category : String
  type : String
  date : String
  deriving DecidableEq, Repr

/-- Method `saveToStorage` (lines 368-370): the slot receives the serialized collection. -/
def saveToStorage (s : State) : State :=
  { s with storage := .text (.value (.arr (s.transactions.map Transaction.toJS))) }

/-! ## `addTransaction` (lines 75-102) -/

/-- Method `addTransaction`, with the clock readings `Date.now()` and
`new Date().toISOString()` as arguments.  `!amount` holds for `NaN` and for `0`. -/
def addTransaction (s : State) (form : Form) (now : Int) (isoNow : String) : State × Outcome :=
  let description := trim form.description
  let category := form.category
  let type := form.type
  let date := form.date
  match form.amount with
  | .nan => (s, .notified "Please fill in all fields" "error")
  | .fin amount =>
    if description == "" || amount == 0 || category == "" || date == "" then
      (s, .notified "Please fill in all fields" "error")
    else
      let transaction : Transaction :=
        { id := now
          description := description
          amount := |amount|
          category := category
          type := type
          date := date
          timestamp := isoNow }
      (saveToStorage { s with transactions := transaction :: s.transactions },
        .notified "Transaction added successfully!" "success")

/-! ## `editTransaction`, `saveEdit`, `closeModal` (lines 104-149, 363-366) -/

/-- The method `Array.prototype.findIndex`, with `none` for `-1`. -/
def findIndex {α : Type} (p : α → Bool) : List α → Option Nat
  | [] => none
  | a :: l => if p a then some 0 else (findIndex p l).map (· + 1)

/-- Assignment `xs[i] = f(xs[i])` for an index inside the array. -/
def assignAt {α : Type} (f : α → α) : Nat → List α → List α
  | _, [] => []
  | 0, a :: l => f a :: l
  | i + 1, a :: l => a :: assignAt f i l

/-- Method `editTransaction(id)`: remembers the id when a record carries it. -/
def editTransaction (s : State) (id : Int) : State :=
  match s.transactions.find? (fun t => t.id == id) with
  | none => s
  | some _ => { s with editingId := some id }

/-- Method `closeModal`: no edit is in progress any more. -/
def closeModal (s : State) : State :=
  { s with editingId := none }

/-- Method `saveEdit`: validation as in `addTransaction`, then the record found by
`findIndex(t => t.id === this.editingId)` gets the five form fields; a bare `return` when
there is none. -/
def saveEdit (s : State) (form : Form) : State × Outcome :=
  let description := trim form.description
  let category := form.category
  let type := form.type
  let date := form.date
  match form.amount with
  | .nan => (s, .notified "Please fill in all fields" "error")
  | .fin amount =>
    if description == "" || amount == 0 || category == "" || date == "" then
      (s, .notified "Please fill in all fields" "error")
    else
      match findIndex (fun t => some t.id == s.editingId) s.transactions with
      | none => (s, .silent)
      | some transactionIndex =>
        let transactions := assignAt
          (fun old => { old with
            description := description
            amount := |amount|
            category := category
            type := type
            date := date })
          transactionIndex s.transactions
        (closeModal (saveToStorage { s with transactions := transactions }),
          .notified "Transaction updated successfully!" "success")

/-! ## `deleteTransaction`, `clearAllTransactions` (lines 151-158, 176-183) -/

/-- Method `deleteTransaction(id)`; `confirmed` is the answer of the `confirm` dialog. -/
def deleteTransaction (s : State) (id : Int) (confirmed : Bool) : State × Outcome :=
  if confirmed then
    (saveToStorage { s with transactions := s.transactions.filter (fun t => t.id != id) },
      .notified "Transaction deleted successfully!" "success")
  else
    (s, .silent)

/-- Method `clearAllTransactions`; `confirmed` is the answer of the `confirm` dialog. -/
def clearAllTransactions (s : State) (confirmed : Bool) : State × Outcome :=
  if confirmed then
    (saveToStorage { s with transactions := [] },
      .notified "All transactions cleared!" "success")
  else
    (s, .silent)

/-! ## The JSON boundary: the constructor (lines 3-8) and `importData` (lines 451-472) -/

/-- The tracker with `this.transactions` holding whatever JSON value was assigned to it:
neither the constructor nor `importData` checks that it is an array of records. -/
structure RawState where
  transactions : JSValue
  currentFilter : String
  editingId : Option Int
  storage : Slot

/-- A tracker whose collection is made of well-typed records, seen as a raw tracker. -/
def State.toRaw (s : State) : RawState :=
  { transactions := .arr (s.transactions.map Transaction.toJS)
    currentFilter := s.currentFilter
    editingId := s.editingId
    storage := s.storage }

/-- The expression `JSON.parse(localStorage.getItem('transactions'))`: for an absent slot
`getItem` returns `null`, which `JSON.parse` reads as the text `null`. -/
def parseItem : Slot → Parsed
  | .absent => .value .null
  | .text p => p

/-- The constructor up to line 6: `this.transactions = JSON.parse(...) || []`, then the two
other fields.  A `SyntaxError` thrown by `JSON.parse` is not caught and ends the
constructor.  The call `init()` of line 7 is left out: it wires the page and renders, and
its `updateDisplay()` throws when the loaded value is not an array of records. -/
def constructor (slot : Slot) : Except String RawState :=
  match parseItem slot with
  | .syntaxError => .error "SyntaxError"
  | .value v =>
    .ok { transactions := if v.truthy then v else .arr []
          currentFilter := "all"
          editingId := none
          storage := slot }

/-- The handler `reader.onload` of `importData`, with the text of the chosen file seen
through `JSON.parse` (`none`: no file chosen, `importData` returns at once).
`updateDisplayCompletes` tells whether `updateDisplay()` runs to its end on the new
collection; when it throws, the `catch` shows the error notification, after the
collection has been replaced and saved. -/
def importData (updateDisplayCompletes : JSValue → Bool) (s : RawState)
    (file : Option Parsed) : RawState × Outcome :=
  match file with
  | none => (s, .silent)
  | some .syntaxError =>
    (s, .notified "Error importing data. Please check the file format." "error")
  | some (.value importedData) =>
    if importedData.isArray then
      let s1 : RawState :=
        { s with transactions := importedData, storage := .text (.value importedData) }
      if updateDisplayCompletes importedData then
        (s1, .notified "Data imported successfully!" "success")
      else
        (s1, .notified "Error importing data. Please check the file format." "error")
    else
      (s, .notified "Error importing data. Please check the file format." "error")

/-! ## `updateBalance` (lines 191-209) -/


/-- The three numbers `updateBalance` computes before formatting them. -/
structure Totals where
  income : JSNumber
  expenses : JSNumber
  balance : JSNumber
  deriving DecidableEq, Repr

/-- Lines 192-200 of `updateBalance`: two `filter`/`reduce` passes, each adding the amounts
to 0 from left to right, and a subtraction. -/
def updateBalance (transactions : List Transaction) : Totals :=
  let income := (transactions.filter (fun t => t.type == "income")).foldl
    (fun sum t => sum.add (.fin t.amount)) (.fin 0)
  let expenses := (transactions.filter (fun t => t.type == "expense")).foldl
    (fun sum t => sum.add (.fin t.amount)) (.fin 0)
  let balance := income.sub expenses
  { income := income, expenses := expenses, balance := balance }

/-! ## `renderTransactions` (lines 211-227) -/

/-- The list `filteredTransactions` that `renderTransactions(searchQuery)` renders, for the
current filter; `toLowerCase` is `String.prototype.toLowerCase`. -/
def renderTransactions (toLowerCase : String → String) (transactions : List Transaction)
    (currentFilter : String) (searchQuery : String) : List Transaction :=
  let filteredTransactions := transactions
  let filteredTransactions :=
    if currentFilter != "all" then
      filteredTransactions.filter (fun t => t.type == currentFilter)
    else filteredTransactions
  let filteredTransactions :=
    if searchQuery != "" then
      filteredTransactions.filter (fun t =>
        includes (toLowerCase t.description) (toLowerCase searchQuery) ||
        includes (toLowerCase t.category) (toLowerCase searchQuery))
    else filteredTransactions
  filteredTransactions

/-! ## `updateCategoryStats` (lines 266-284) -/

/-- The own properties of the object `categoryTotals`, in the order they were created. -/
abbrev CategoryTotals := List (String × JSNumber)

/-- Read of an own property `o[k]`, with `none` when there is none. -/
def propGet : CategoryTotals → String → Option JSNumber
  | [], _ => none
  | (k', v) :: o, k => if k' == k then some v else propGet o k

/-- Property write `o[k] = v`: an existing property keeps its place, a new one comes last. -/
def propSet : CategoryTotals → String → JSNumber → CategoryTotals
  | [], k, v => [(k, v)]
  | (k', v') :: o, k, v => if k' == k then (k', v) :: o else (k', v') :: propSet o k v

/-- The expression `x || 0` on a property read: `undefined`, `NaN` and `0` give `0`. -/
def orZero : Option JSNumber → JSNumber
  | none => .fin 0
  | some .nan => .fin 0
  | some (.fin q) => if q == 0 then .fin 0 else .fin q
  | some x => x

/-- The property names that the empty object literal `{}` inherits from
`Object.prototype`.  For these `categoryTotals[k]` is not `undefined` on the first read:
it is the prototype itself for `__proto__` and a function for the others. -/
def objectPrototypeNames : List String :=
  ["__proto__", "constructor", "hasOwnProperty", "isPrototypeOf", "propertyIsEnumerable",
   "toLocaleString", "toString", "valueOf", "__defineGetter__", "__defineSetter__",
   "__lookupGetter__", "__lookupSetter__"]

/-- Whether a property key is an array index, and which: the canonical decimal text of an
integer from `0` to `2^32 - 2`. -/
def arrayIndex? (k : String) : Option Nat :=
  let cs := k.data
  if cs.all Char.isDigit && !cs.isEmpty && (cs.length == 1 || cs.head? != some '0') then
    let n := cs.foldl (fun acc c => 10 * acc + (c.toNat - 48)) 0
    if n < 2 ^ 32 - 1 then some n else none
  else none

/-- Both `Object.keys(o)` and `Object.entries(o)` enumerate own properties in the order of
`OrdinaryOwnPropertyKeys`: array-index keys first, in ascending numeric order, then the
other string keys in creation order. -/
def Object.entries (o : CategoryTotals) : List (String × JSNumber) :=
  let indexed := o.filterMap (fun e => (arrayIndex? e.1).map (fun n => (n, e)))
  ((indexed.insertionSort (fun a b => a.1 ≤ b.1)).map (fun ne => ne.2)) ++
    o.filter (fun e => (arrayIndex? e.1).isNone)

/-- The keys of `Object.entries(o)`, that is `Object.keys(o)`. -/
def Object.keys (o : CategoryTotals) : List String :=
  (Object.entries o).map (fun e => e.1)

/-- The method `Array.prototype.sort(compare)`: a stable sort, in which `a` stays in front
of `b` unless `compare(a, b) > 0` (a `NaN` result counts as 0).  With a consistent
comparator the result does not depend on the sorting algorithm. -/
def arraySort {α : Type} (compare : α → α → JSNumber) (xs : List α) : List α :=
  xs.insertionSort (fun a b => (compare a b).isPositive = false)

/-- The array `sortedCategories` that `updateCategoryStats` renders (empty when it shows
"No expense data available").  For the category `__proto__` the read gives
`Object.prototype`, the sum is a string and the write reaches the `__proto__` setter, which
ignores it: the object stays as it is.  For the other names of `objectPrototypeNames` the
read gives a function and the total becomes a string: these are outside this model, which
keeps numbers only, and the theorems exclude them. -/
def updateCategoryStats (transactions : List Transaction) : List (String × JSNumber) :=
  let categoryTotals : CategoryTotals :=
    (transactions.filter (fun t => t.type == "expense")).foldl
      (fun o t =>
        if t.category == "__proto__" then o
        else propSet o t.category ((orZero (propGet o t.category)).add (.fin t.amount))) []
  if (Object.keys categoryTotals).length == 0 then []
  else (arraySort (fun a b => b.2.sub a.2) (Object.entries categoryTotals)).take 6

/-! ## Spec-side vocabulary -/

/-- The sum of a list of amounts as JavaScript computes it: starting from 0 and adding from
left to right, every partial sum rounded to a double. -/
def jsSum (amounts : List ℚ) : JSNumber :=
  amounts.foldl (fun sum a => sum.add (.fin a)) (.fin 0)

/-- No partial sum needs rounding when the amounts are added to `start` from left to
right. -/
def sumsExactlyFrom : ℚ → List ℚ → Bool
  | _, [] => true
  | start, a :: l => decide (Representable (start + a)) && sumsExactlyFrom (start + a) l

/-- The amounts of the records of a given type, in collection order. -/
def amountsOfType (ty : String) (transactions : List Transaction) : List ℚ :=
  (transactions.filter (fun t => t.type = ty)).map (fun t => t.amount)

/-- The exact sum of the amounts of the records of a given type. -/
def sumOfType (ty : String) (transactions : List Transaction) : ℚ :=
  (amountsOfType ty transactions).sum

/-- The distinct elements of a list, each at the place of its first occurrence. -/
def firstOccurrences : List String → List String
  | [] => []
  | c :: cs => c :: (firstOccurrences cs).filter (fun d => d ≠ c)

/-- The categories that have an expense record, in first-occurrence order. -/
def expenseCategories (transactions : List Transaction) : List String :=
  firstOccurrences ((transactions.filter (fun t => t.type = "expense")).map (fun t => t.category))

/-- The amounts of the expense records of one category, in collection order. -/
def categoryAmounts (transactions : List Transaction) (c : String) : List ℚ :=
  (transactions.filter (fun t => t.type = "expense" ∧ t.category = c)).map (fun t => t.amount)

/-- The sum of the amounts of the expense records of one category, added as JavaScript
adds them. -/
def categoryExpenseTotal (transactions : List Transaction) (c : String) : JSNumber :=
  jsSum (categoryAmounts transactions c)

/-- The exact sum of the amounts of the expense records of one category. -/
def exactCategoryTotal (transactions : List Transaction) (c : String) : ℚ :=
  (categoryAmounts transactions c).sum

/-- Ordering of (category, total) pairs by total, descending, equal totals keeping their
relative order. -/
def sortByTotalDescending (pairs : List (String × JSNumber)) : List (String × JSNumber) :=
  pairs.insertionSort (fun a b => b.2.le a.2)

instance sortByTotal_isTotal : IsTotal (String × JSNumber) (fun a b => b.2.le a.2) := by
  refine ⟨fun a b => ?_⟩
  unfold JSNumber.le
  rcases lt_trichotomy a.2.level b.2.level with h | h | h
  · exact Or.inr (Or.inl h)
  · rcases le_total a.2.value b.2.value with hv | hv
    · exact Or.inr (Or.inr ⟨h, hv⟩)
    · exact Or.inl (Or.inr ⟨h.symm, hv⟩)
  · exact Or.inl (Or.inl h)

instance sortByTotal_isTrans : IsTrans (String × JSNumber) (fun a b => b.2.le a.2) := by
  refine ⟨fun a b c hab hbc => ?_⟩
  unfold JSNumber.le at *
  rcases hab with h1 | ⟨h1, v1⟩ <;> rcases hbc with h2 | ⟨h2, v2⟩
  · exact Or.inl (lt_trans h2 h1)
  · exact Or.inl (h2 ▸ h1)
  · exact Or.inl (h1 ▸ h2)
  · exact Or.inr ⟨h2.trans h1, le_trans v2 v1⟩

/-- The expense records grouped by category and each group summed: one (category, total)
pair per category, in first-occurrence order. -/
def categoryGroups (transactions : List Transaction) : List (String × JSNumber) :=
  (expenseCategories transactions).map (fun c => (c, categoryExpenseTotal transactions c))

/-- The category ranking: expense records grouped by category, each group summed as
JavaScript adds, ordered by total descending, first six kept. -/
def categoryRanking (transactions : List Transaction) : List (String × JSNumber) :=
  (sortByTotalDescending (categoryGroups transactions)).take 6

/-- The category ranking read with exact sums: expense records grouped by category, each
group summed exactly, ordered by total descending with ties in first-occurrence order,
first six kept. -/
def exactCategoryRanking (transactions : List Transaction) : List (String × ℚ) :=
  (((expenseCategories transactions).map
    (fun c => (c, exactCategoryTotal transactions c))).insertionSort
    (fun a b => a.2 ≥ b.2)).take 6

/-- No expense record has a category named like an inherited property of
`Object.prototype`. -/
def PlainCategories (transactions : List Transaction) : Prop :=
  ∀ t ∈ transactions, t.type = "expense" → t.category ∉ objectPrototypeNames

instance (transactions : List Transaction) : Decidable (PlainCategories transactions) := by
  unfold PlainCategories
  infer_instance

/-- The selection rule of the view filter, as the specification words it: the type matches
unless the filter is `all`, and the lower-cased description or category contains the
lower-cased search term unless the term is empty. -/
def Selected (lower : String → String) (typeFilter searchTerm : String)
    (t : Transaction) : Prop :=
  (typeFilter = "all" ∨ t.type = typeFilter) ∧
  (searchTerm = "" ∨ (lower searchTerm).data <:+: (lower t.description).data ∨
    (lower searchTerm).data <:+: (lower t.category).data)

instance (lower : String → String) (typeFilter searchTerm : String) (t : Transaction) :
    Decidable (Selected lower typeFilter searchTerm t) := by
  unfold Selected
  infer_instance

/-- The check `!description || !amount || !category || !date` of lines 82 and 128 fails,
that is, the form is accepted. -/
def Form.accepted (form : Form) : Prop :=
  trim form.description ≠ "" ∧ form.amount ≠ .nan ∧ form.amount ≠ .fin 0 ∧
    form.category ≠ "" ∧ form.date ≠ ""

instance (form : Form) : Decidable form.accepted := by
  unfold Form.accepted
  infer_instance

/-- The number `Math.abs(amount)` stored for an accepted form. -/
def Form.magnitude (form : Form) : ℚ :=
  match form.amount with
  | .nan => 0
  | .fin a => |a|

/-- The ids of the records of a collection are pairwise distinct. -/
def DistinctIds (transactions : List Transaction) : Prop :=
  (transactions.map (fun t => t.id)).Nodup

instance (transactions : List Transaction) : Decidable (DistinctIds transactions) := by
  unfold DistinctIds
  infer_instance

/-! ## Sample data: the records, forms and trackers of the scenarios -/

/-- The record the first `add` of the scenario stores. -/
def salaryRecord : Transaction :=
  { id := 1704067200000, description := "Salary", amount := 3000, category := "salary",
    type := "income", date := "2024-01-01", timestamp := "2024-01-01T00:00:00.000Z" }

/-- The record the second `add` of the scenario stores. -/
def coffeeRecord : Transaction :=
  { id := 1704067260000, description := "Coffee", amount := 4.5, category := "food",
    type := "expense", date := "2024-01-01", timestamp := "2024-01-01T00:01:00.000Z" }

/-- A record whose type is neither `income` nor `expense`. -/
def transferRecord : Transaction :=
  { id := 1704067320000, description := "To savings", amount := 250, category := "other",
    type := "transfer", date := "2024-01-01", timestamp := "2024-01-01T00:02:00.000Z" }

/-- Two expense records of equal amount whose categories are the array-index names `2` and
`1`, in this order. -/
def indexNamedRecords : List Transaction :=
  [{ id := 1704067200000, description := "Locker", amount := 5, category := "2",
     type := "expense", date := "2024-01-01", timestamp := "2024-01-01T00:00:00.000Z" },
   { id := 1704067260000, description := "Parking", amount := 5, category := "1",
     type := "expense", date := "2024-01-01", timestamp := "2024-01-01T00:01:00.000Z" }]

/-- The double that the literal `0.1` denotes. -/
def tenth : ℚ := 3602879701896397 / 36028797018963968

/-- The double that the literal `0.2` denotes. -/
def fifth : ℚ := 3602879701896397 / 18014398509481984

/-- The double that the literal `0.3` denotes. -/
def threeTenths : ℚ := 5404319552844595 / 18014398509481984

/-- A record of the given type, category and amount, for the sample ledgers. -/
def recordOf (type category : String) (amount : ℚ) : Transaction :=
  { id := 1704067200000, description := "Entry", amount := amount, category := category,
    type := type, date := "2024-01-01", timestamp := "2024-01-01T00:00:00.000Z" }

/-- Two income records of amounts 0.1 and 0.2. -/
def smallIncomes : List Transaction :=
  [recordOf "income" "salary" tenth, recordOf "income" "salary" fifth]

/-- Incomes 0.3, 0.2, 0.1 and expenses 0.1, 0.2, 0.3: the same amounts in opposite
order. -/
def mirroredLedger : List Transaction :=
  [recordOf "income" "salary" threeTenths, recordOf "income" "salary" fifth,
   recordOf "income" "salary" tenth, recordOf "expense" "food" tenth,
   recordOf "expense" "food" fifth, recordOf "expense" "food" threeTenths]

/-- Expenses 0.3, 0.2, 0.1 for `bills`, then 0.1, 0.2, 0.3 for `food`: the same amounts in
opposite order. -/
def tiedExpenses : List Transaction :=
  [recordOf "expense" "bills" threeTenths, recordOf "expense" "bills" fifth,
   recordOf "expense" "bills" tenth, recordOf "expense" "food" tenth,
   recordOf "expense" "food" fifth, recordOf "expense" "food" threeTenths]

/-- An expense of 1 for `food` and an expense of 100 for the category `__proto__`. -/
def protoNamedRecords : List Transaction :=
  [recordOf "expense" "food" 1, recordOf "expense" "__proto__" 100]

/-- An expense record whose amount is zero (a record `importData` accepts). -/
def zeroAmountRecords : List Transaction :=
  [{ id := 1704067200000, description := "Free sample", amount := 0, category := "food",
     type := "expense", date := "2024-01-01", timestamp := "2024-01-01T00:00:00.000Z" }]

/-- An expense record of the given category and amount, for the sample ledger. -/
def expenseOf (category : String) (amount : ℚ) : Transaction :=
  { id := 1704067200000, description := "Purchase", amount := amount, category := category,
    type := "expense", date := "2024-01-01", timestamp := "2024-01-01T00:00:00.000Z" }

/-- A ledger with seven expense categories, two of them tied, and one income record. -/
def sampleLedger : List Transaction :=
  [expenseOf "food" 5, expenseOf "transport" 7, expenseOf "food" 3, salaryRecord,
   expenseOf "bills" 8, expenseOf "health" 2, expenseOf "shopping" 9,
   expenseOf "entertainment" 4, expenseOf "other" 1]

/-- The tracker right after start-up on an empty store. -/
def emptyState : State :=
  { transactions := [], currentFilter := "all", editingId := none, storage := .absent }

/-- The first `add` of the scenario: Salary, 3000, income. -/
def salaryForm : Form :=
  { description := "Salary", amount := .fin 3000, category := "salary", type := "income",
    date := "2024-01-01" }

/-- The second `add` of the scenario: Coffee, -4.5, expense. -/
def coffeeForm : Form :=
  { description := "Coffee", amount := .fin (-4.5), category := "food", type := "expense",
    date := "2024-01-01" }

/-- The Coffee input typed with blanks around the description. -/
def paddedCoffeeForm : Form :=
  { coffeeForm with description := " Coffee " }

/-- A form whose description holds blanks only. -/
def blankForm : Form :=
  { coffeeForm with description := "   " }

/-- The tracker after the two `add`s of the scenario. -/
def scenarioState : State :=
  (addTransaction
    (addTransaction emptyState salaryForm 1704067200000 "2024-01-01T00:00:00.000Z").1
    coffeeForm 1704067260000 "2024-01-01T00:01:00.000Z").1

/-- The scenario tracker with the edit dialog open on the Salary record. -/
def editingSalaryState : State :=
  editTransaction scenarioState 1704067200000

/-- A tracker holding two records that carry the same id. -/
def duplicateIdState : State :=
  { emptyState with transactions := [{ coffeeRecord with id := 1704067200000 }, salaryRecord] }

/-! ## Auxiliary lemmas -/

theorem includesChars_iff (sub s : List Char) : includesChars sub s = true ↔ sub <:+: s := by
  induction s with
  | nil => simp [includesChars]
  | cons c s ih =>
    simp only [includesChars, Bool.or_eq_true, ih, List.isPrefixOf_iff_prefix]
    rw [List.infix_cons_iff]

theorem includes_iff (s sub : String) : includes s sub = true ↔ sub.data <:+: s.data :=
  includesChars_iff _ _

/-! ## Lemmas on rounding to a double -/

theorem log2Aux_spec (fuel n : ℕ) (hfuel : n ≤ fuel) (hn : n ≠ 0) :
    2 ^ log2Aux fuel n ≤ n ∧ n < 2 ^ (log2Aux fuel n + 1) := by
  induction fuel generalizing n with
  | zero => omega
  | succ fuel ih =>
    unfold log2Aux
    by_cases h2 : n < 2
    · have : n = 1 := by omega
      subst this
      simp
    · simp only [h2, if_false]
      have hdiv : n / 2 ≤ fuel := by omega
      have hne : n / 2 ≠ 0 := by omega
      obtain ⟨h1, h3⟩ := ih (n / 2) hdiv hne
      rw [pow_succ, pow_succ] at *
      constructor <;> omega

theorem pow_log2_le (n : ℕ) (hn : n ≠ 0) : 2 ^ log2 n ≤ n :=
  (log2Aux_spec n n le_rfl hn).1

theorem lt_pow_log2_succ (n : ℕ) (hn : n ≠ 0) : n < 2 ^ (log2 n + 1) :=
  (log2Aux_spec n n le_rfl hn).2

theorem roundHalfEven_pos (n d : ℕ) (hd : 0 < d) (h : d ≤ n) : 1 ≤ roundHalfEven n d := by
  unfold roundHalfEven
  have : 1 ≤ n / d := (Nat.one_le_div_iff hd).2 h
  simp only
  split_ifs <;> omega


theorem scale_le_iff (a d : ℕ) (k : ℤ) :
    d * 2 ^ k.toNat ≤ a * 2 ^ (-k).toNat ↔ (2 : ℚ) ^ k * d ≤ a := by
  rcases le_total 0 k with h | h
  · obtain ⟨n, rfl⟩ := Int.eq_ofNat_of_zero_le h
    have h1 : (-(n : ℤ)).toNat = 0 := by simp
    rw [h1]
    simp only [Int.toNat_ofNat, pow_zero, mul_one, zpow_natCast]
    rw [mul_comm]
    norm_cast
  · obtain ⟨n, rfl⟩ := Int.exists_eq_neg_ofNat h
    have h1 : (-(n : ℤ)).toNat = 0 := by simp
    rw [h1]
    simp only [neg_neg, Int.toNat_ofNat, pow_zero, mul_one, zpow_neg, zpow_natCast]
    have hpos : (0 : ℚ) < 2 ^ n := by positivity
    rw [inv_mul_le_iff₀ hpos, mul_comm ((2:ℚ) ^ n)]
    norm_cast

theorem floorLog2_le (a d : ℕ) (ha : a ≠ 0) (hd : d ≠ 0) :
    (2 : ℚ) ^ floorLog2 a d * d ≤ a := by
  unfold floorLog2
  simp only
  split_ifs with h
  · exact (scale_le_iff a d _).1 h
  · have h1 : ((2 : ℚ) ^ (log2 a : ℤ)) ≤ a := by
      rw [zpow_natCast]
      exact_mod_cast pow_log2_le a ha
    have h2 : (d : ℚ) ≤ 2 ^ ((log2 d : ℤ) + 1) := by
      rw [← Nat.cast_add_one, zpow_natCast]
      exact_mod_cast (lt_pow_log2_succ d hd).le
    have h3 : (2 : ℚ) ^ ((log2 a : ℤ) - (log2 d : ℤ) - 1) * 2 ^ ((log2 d : ℤ) + 1) =
        2 ^ (log2 a : ℤ) := by
      rw [← zpow_add₀ (by norm_num : (2 : ℚ) ≠ 0)]
      congr 1
      ring
    calc (2 : ℚ) ^ ((log2 a : ℤ) - (log2 d : ℤ) - 1) * d
        ≤ 2 ^ ((log2 a : ℤ) - (log2 d : ℤ) - 1) * 2 ^ ((log2 d : ℤ) + 1) := by
          apply mul_le_mul_of_nonneg_left h2
          positivity
      _ = 2 ^ (log2 a : ℤ) := h3
      _ ≤ a := h1


theorem exponent_ge (a d : ℕ) :
    (-1022 : ℤ) ≤ (if floorLog2 a d < -1022 then -1022 else floorLog2 a d) := by
  split_ifs with h
  · exact le_rfl
  · exact not_lt.1 h

theorem roundMagnitude_onGrid (a d : ℕ) : ∃ n : ℕ, roundMagnitude a d = n * minDouble := by
  unfold roundMagnitude
  simp only
  have he := exponent_ge a d
  generalize (if floorLog2 a d < -1022 then (-1022 : ℤ) else floorLog2 a d) = e at he ⊢
  generalize roundHalfEven (a * 2 ^ (52 - e).toNat) (d * 2 ^ (e - 52).toNat) = m
  have hB : (52 - e).toNat ≤ 1074 := by omega
  refine ⟨m * 2 ^ (e - 52).toNat * 2 ^ (1074 - (52 - e).toNat), ?_⟩
  unfold minDouble
  have h2 : ((2 : ℚ) ^ 1074) = 2 ^ (52 - e).toNat * 2 ^ (1074 - (52 - e).toNat) := by
    rw [← pow_add]
    congr 1
    omega
  rw [h2]
  push_cast
  field_simp
  ring

theorem roundMagnitude_ge (a d : ℕ) (ha : a ≠ 0) (hd : d ≠ 0) (h : minDouble * d ≤ a) :
    minDouble ≤ roundMagnitude a d := by
  unfold roundMagnitude
  simp only
  have he := exponent_ge a d
  have hulp : (2 : ℚ) ^ ((if floorLog2 a d < -1022 then (-1022 : ℤ) else floorLog2 a d) - 52)
      * d ≤ a := by
    split_ifs with hlt
    · have : (2 : ℚ) ^ ((-1022 : ℤ) - 52) = minDouble := by
        unfold minDouble
        rw [show ((-1022 : ℤ) - 52) = -((1074 : ℕ) : ℤ) by norm_num, zpow_neg, zpow_natCast,
          one_div]
      rw [this]
      exact h
    · have h1 := floorLog2_le a d ha hd
      have h2 : (2 : ℚ) ^ (floorLog2 a d - 52) ≤ 2 ^ floorLog2 a d := by
        apply zpow_le_zpow_right₀ (by norm_num)
        omega
      calc (2 : ℚ) ^ (floorLog2 a d - 52) * d ≤ 2 ^ floorLog2 a d * d := by
            apply mul_le_mul_of_nonneg_right h2
            positivity
        _ ≤ a := h1
  generalize (if floorLog2 a d < -1022 then (-1022 : ℤ) else floorLog2 a d) = e at he hulp ⊢
  have hND : d * 2 ^ (e - 52).toNat ≤ a * 2 ^ (52 - e).toNat := by
    have := (scale_le_iff a d (e - 52)).2 hulp
    rwa [neg_sub] at this
  have hDpos : 0 < d * 2 ^ (e - 52).toNat := by positivity
  have hm := roundHalfEven_pos _ _ hDpos hND
  generalize roundHalfEven (a * 2 ^ (52 - e).toNat) (d * 2 ^ (e - 52).toNat) = m at hm
  have hB : (52 - e).toNat ≤ 1074 := by omega
  unfold minDouble
  rw [div_le_div_iff₀ (by positivity) (by positivity), one_mul]
  have h1 : ((2 : ℚ) ^ (52 - e).toNat) ≤ 2 ^ 1074 :=
    pow_le_pow_right₀ (by norm_num) hB
  have h2 : (1 : ℚ) ≤ ((m * 2 ^ (e - 52).toNat : ℕ) : ℚ) := by
    have : 1 ≤ m * 2 ^ (e - 52).toNat := Nat.one_le_iff_ne_zero.2 (by positivity)
    exact_mod_cast this
  push_cast at h2 ⊢
  calc ((2 : ℚ) ^ (52 - e).toNat) ≤ 2 ^ 1074 := h1
    _ = 1 * 2 ^ 1074 := (one_mul _).symm
    _ ≤ (m * 2 ^ (e - 52).toNat) * 2 ^ 1074 := by
        apply mul_le_mul_of_nonneg_right h2
        positivity


theorem roundDouble_ne_nan (q : ℚ) : roundDouble q ≠ .nan := by
  unfold roundDouble
  split_ifs <;> simp

theorem roundDouble_zero : roundDouble 0 = .fin 0 := by
  simp [roundDouble]

theorem roundDouble_onGrid (q r : ℚ) (h : roundDouble q = .fin r) : OnGrid r := by
  unfold roundDouble at h
  obtain ⟨n, hn⟩ := roundMagnitude_onGrid q.num.natAbs q.den
  split_ifs at h with h0 h1 h2 h3
  · exact ⟨0, by simpa using (JSNumber.fin.inj h).symm⟩
  · rw [← JSNumber.fin.inj h, hn]
    exact ⟨n, by push_cast; rfl⟩
  · rw [← JSNumber.fin.inj h, hn]
    exact ⟨-n, by push_cast; ring⟩

theorem roundDouble_neg (q : ℚ) : roundDouble (-q) = (roundDouble q).neg := by
  unfold roundDouble
  by_cases h0 : q = 0
  · simp [h0, JSNumber.neg]
  · have h0' : ¬ (-q = 0) := by simpa using h0
    simp only [h0, h0', if_false, Rat.neg_num, Int.natAbs_neg, Rat.neg_den]
    rcases lt_or_gt_of_ne h0 with hneg | hpos
    · have h1 : 0 < -q := by linarith
      have h2 : ¬ 0 < q := by linarith
      simp only [h1, h2, if_true, if_false]
      split_ifs <;> simp [JSNumber.neg]
    · have h1 : ¬ 0 < -q := by linarith
      have h2 : 0 < q := hpos
      simp only [h1, h2, if_true, if_false]
      split_ifs <;> simp [JSNumber.neg]

theorem roundDouble_of_ge (q : ℚ) (h : minDouble ≤ q) :
    roundDouble q = .posInf ∨ ∃ r, roundDouble q = .fin r ∧ minDouble ≤ r := by
  have hmin : (0 : ℚ) < minDouble := by unfold minDouble; positivity
  have hq : 0 < q := lt_of_lt_of_le hmin h
  have hnum : 0 < q.num := Rat.num_pos.2 hq
  have ha : q.num.natAbs ≠ 0 := by
    intro e
    rw [Int.natAbs_eq_zero] at e
    omega
  have hcast : ((q.num.natAbs : ℕ) : ℚ) = q.num := by
    have h1 : ((q.num.natAbs : ℕ) : ℤ) = q.num := Int.natAbs_of_nonneg hnum.le
    rw [← Int.cast_natCast, h1]
  have hscaled : minDouble * q.den ≤ q.num.natAbs := by
    rw [hcast]
    have hden : (0 : ℚ) < q.den := by exact_mod_cast q.den_pos
    calc minDouble * q.den ≤ q * q.den := mul_le_mul_of_nonneg_right h hden.le
      _ = q.num := Rat.mul_den_eq_num q
  have hge := roundMagnitude_ge q.num.natAbs q.den ha q.den_nz hscaled
  unfold roundDouble
  simp only [ne_of_gt hq, if_false, hq, if_true]
  split_ifs
  · exact Or.inl rfl
  · exact Or.inr ⟨_, rfl, hge⟩


theorem minDouble_pos : 0 < minDouble := by
  unfold minDouble
  positivity

theorem roundDouble_regular (q : ℚ) : (roundDouble q).Regular := by
  cases h : roundDouble q with
  | nan => exact absurd h (roundDouble_ne_nan q)
  | negInf => exact Or.inr (Or.inl rfl)
  | posInf => exact Or.inl rfl
  | fin r => exact Or.inr (Or.inr ⟨r, rfl, roundDouble_onGrid q r h⟩)

theorem add_fin_regular (x : JSNumber) (a : ℚ) (hx : x ≠ .nan) :
    (x.add (.fin a)).Regular := by
  cases x with
  | nan => exact absurd rfl hx
  | negInf => exact Or.inr (Or.inl rfl)
  | posInf => exact Or.inl rfl
  | fin q => exact roundDouble_regular (q + a)

theorem JSNumber.Regular.ne_nan {x : JSNumber} (h : x.Regular) : x ≠ .nan := by
  rcases h with h | h | ⟨q, h, _⟩ <;> rw [h] <;> simp

theorem isPositive_roundDouble_of_pos (q : ℚ) (hq : OnGrid q) (hpos : 0 < q) :
    (roundDouble q).isPositive = true := by
  obtain ⟨n, hn⟩ := hq
  have hn1 : (1 : ℤ) ≤ n := by
    by_contra hcon
    have hle : (n : ℚ) ≤ 0 := by exact_mod_cast (by omega : n ≤ 0)
    have : q ≤ 0 := by
      rw [hn]
      exact mul_nonpos_of_nonpos_of_nonneg hle minDouble_pos.le
    linarith
  have hge : minDouble ≤ q := by
    rw [hn]
    have : (1 : ℚ) ≤ n := by exact_mod_cast hn1
    calc minDouble = 1 * minDouble := (one_mul _).symm
      _ ≤ n * minDouble := mul_le_mul_of_nonneg_right this minDouble_pos.le
  rcases roundDouble_of_ge q hge with h | ⟨r, h, hr⟩
  · rw [h]; rfl
  · rw [h]
    simp only [JSNumber.isPositive, decide_eq_true_eq]
    exact lt_of_lt_of_le minDouble_pos hr

theorem not_isPositive_roundDouble_of_nonpos (q : ℚ) (hq : q ≤ 0) :
    (roundDouble q).isPositive = false := by
  unfold roundDouble
  by_cases h0 : q = 0
  · simp [h0, JSNumber.isPositive]
  · have hlt : ¬ 0 < q := not_lt.2 hq
    simp only [h0, hlt, if_false]
    split_ifs with h
    · rfl
    · simp only [JSNumber.isPositive, decide_eq_false_iff_not, not_lt, Left.neg_nonpos_iff]
      obtain ⟨n, hn⟩ := roundMagnitude_onGrid q.num.natAbs q.den
      rw [hn]
      exact mul_nonneg (Nat.cast_nonneg n) minDouble_pos.le

theorem OnGrid.sub {a b : ℚ} (ha : OnGrid a) (hb : OnGrid b) : OnGrid (b + -a) := by
  obtain ⟨n, hn⟩ := ha
  obtain ⟨m, hm⟩ := hb
  exact ⟨m - n, by rw [hn, hm]; push_cast; ring⟩

theorem isPositive_sub_iff (a b : JSNumber) (ha : a.Regular) (hb : b.Regular) :
    (b.sub a).isPositive = true ↔ ¬ b.le a := by
  rcases ha with ha | ha | ⟨x, ha, hx⟩ <;> rcases hb with hb | hb | ⟨y, hb, hy⟩ <;>
    subst ha <;> subst hb
  all_goals try (simp [JSNumber.sub, JSNumber.add, JSNumber.neg, JSNumber.isPositive,
    JSNumber.le, JSNumber.level, JSNumber.value]; done)
  simp only [JSNumber.sub, JSNumber.add, JSNumber.neg, JSNumber.le, JSNumber.level,
    JSNumber.value, lt_self_iff_false, true_and, false_or, not_le]
  constructor
  · intro hp
    by_contra hcon
    have : y + -x ≤ 0 := by linarith [not_lt.1 hcon]
    rw [not_isPositive_roundDouble_of_nonpos _ this] at hp
    exact Bool.false_ne_true hp
  · intro hlt
    exact isPositive_roundDouble_of_pos _ (OnGrid.sub hx hy) (by linarith)


/-! ## Lemmas on `updateBalance` -/

theorem foldl_add_from_exact (l : List ℚ) (start : ℚ) (h : sumsExactlyFrom start l = true) :
    l.foldl (fun (sum : JSNumber) a => sum.add (.fin a)) (.fin start) =
      .fin (start + l.sum) := by
  induction l generalizing start with
  | nil => simp
  | cons a l ih =>
    simp only [sumsExactlyFrom, Bool.and_eq_true, decide_eq_true_eq] at h
    have hstep : (JSNumber.fin start).add (.fin a) = .fin (start + a) := h.1
    rw [List.foldl_cons, hstep, ih (start + a) h.2, List.sum_cons, add_assoc]

theorem jsSum_of_exact (l : List ℚ) (h : sumsExactlyFrom 0 l = true) :
    jsSum l = .fin l.sum := by
  have := foldl_add_from_exact l 0 h
  rwa [zero_add] at this

theorem updateBalance_income (ts : List Transaction) :
    (updateBalance ts).income = jsSum (amountsOfType "income" ts) := by
  simp only [updateBalance, jsSum, amountsOfType, List.foldl_map]
  rfl

theorem updateBalance_expenses (ts : List Transaction) :
    (updateBalance ts).expenses = jsSum (amountsOfType "expense" ts) := by
  simp only [updateBalance, jsSum, amountsOfType, List.foldl_map]
  rfl

theorem updateBalance_balance (ts : List Transaction) :
    (updateBalance ts).balance = (updateBalance ts).income.sub (updateBalance ts).expenses :=
  rfl

theorem amountsOfType_filter_known (ty : String) (h : ty = "income" ∨ ty = "expense")
    (ts : List Transaction) :
    amountsOfType ty (ts.filter (fun t => t.type = "income" ∨ t.type = "expense")) =
      amountsOfType ty ts := by
  unfold amountsOfType
  rw [List.filter_filter]
  congr 1
  apply List.filter_congr
  intro t _
  rcases h with h | h <;> subst h <;> by_cases h1 : t.type = "income" <;> simp [h1]

theorem Totals.ext_of_sums (a b : Totals) (hb : ∀ t : Totals, t = a ∨ t = b →
    t.balance = t.income.sub t.expenses) (hi : a.income = b.income)
    (he : a.expenses = b.expenses) : a = b := by
  have h1 := hb a (Or.inl rfl)
  have h2 := hb b (Or.inr rfl)
  cases a with
  | mk i e bal =>
    cases b with
    | mk i' e' bal' =>
      simp only at hi he h1 h2
      subst hi he
      rw [h1, h2]

/-! ## Theorems for claim C1 -/

/-- C1, as stated, fails: with two income records of amounts 0.1 and 0.2, both doubles, the
income that `updateBalance` computes is 0.30000000000000004, not the sum of the two
amounts; and with incomes 0.3, 0.2, 0.1 and expenses 0.1, 0.2, 0.3, whose sums are equal,
the balance it computes is `-2^-53`, not zero. -/
theorem C1_counterexample_rounded_sums :
    Representable tenth ∧ Representable fifth ∧ Representable threeTenths ∧
    (updateBalance smallIncomes).income = .fin (1351079888211149 / 4503599627370496) ∧
    sumOfType "income" smallIncomes = 10808639105689191 / 36028797018963968 ∧
    (updateBalance smallIncomes).income ≠ .fin (sumOfType "income" smallIncomes) ∧
    sumOfType "income" mirroredLedger = sumOfType "expense" mirroredLedger ∧
    (updateBalance mirroredLedger).balance = .fin (-1 / 9007199254740992) := by
  decide!

/-- C1, amended: for every record collection, the totals of `updateBalance` are: income =
the amounts of the records of type `income` added from 0 in collection order in double
arithmetic, expenses = the same for type `expense`, balance = the double difference income
- expenses; on the empty collection all three are zero; records of any other type
contribute to none of the three.  When no partial sum needs rounding, income and expenses
are the exact sums of the amounts, and then the balance is their exact difference if that
is a double. -/
theorem C1_updateBalance_totals :
    (∀ ts : List Transaction,
      (updateBalance ts).income = jsSum (amountsOfType "income" ts) ∧
      (updateBalance ts).expenses = jsSum (amountsOfType "expense" ts) ∧
      (updateBalance ts).balance =
        (updateBalance ts).income.sub (updateBalance ts).expenses) ∧
    updateBalance [] = { income := .fin 0, expenses := .fin 0, balance := .fin 0 } ∧
    (∀ ts : List Transaction,
      updateBalance (ts.filter (fun t => t.type = "income" ∨ t.type = "expense")) =
        updateBalance ts) ∧
    (∀ (pre post : List Transaction) (t : Transaction),
      t.type ≠ "income" → t.type ≠ "expense" →
        updateBalance (pre ++ t :: post) = updateBalance (pre ++ post)) ∧
    (∀ ts : List Transaction,
      sumsExactlyFrom 0 (amountsOfType "income" ts) = true →
      sumsExactlyFrom 0 (amountsOfType "expense" ts) = true →
        (updateBalance ts).income = .fin (sumOfType "income" ts) ∧
        (updateBalance ts).expenses = .fin (sumOfType "expense" ts) ∧
        (Representable (sumOfType "income" ts - sumOfType "expense" ts) →
          (updateBalance ts).balance =
            .fin (sumOfType "income" ts - sumOfType "expense" ts))) := by
  refine ⟨fun ts => ⟨updateBalance_income ts, updateBalance_expenses ts, rfl⟩, ?_, ?_, ?_, ?_⟩
  · decide!
  · intro ts
    apply Totals.ext_of_sums
    · intro t _
      rcases ‹t = _ ∨ t = _› with h | h <;> rw [h] <;> rfl
    · rw [updateBalance_income, updateBalance_income,
        amountsOfType_filter_known _ (Or.inl rfl)]
    · rw [updateBalance_expenses, updateBalance_expenses,
        amountsOfType_filter_known _ (Or.inr rfl)]
  · intro pre post t h1 h2
    simp [updateBalance, List.filter_cons, h1, h2]
  · intro ts hi he
    have h1 : (updateBalance ts).income = .fin (sumOfType "income" ts) := by
      rw [updateBalance_income, jsSum_of_exact _ hi]
      rfl
    have h2 : (updateBalance ts).expenses = .fin (sumOfType "expense" ts) := by
      rw [updateBalance_expenses, jsSum_of_exact _ he]
      rfl
    refine ⟨h1, h2, fun hrep => ?_⟩
    rw [updateBalance_balance, h1, h2]
    simp only [JSNumber.sub, JSNumber.neg, JSNumber.add]
    rw [← sub_eq_add_neg]
    exact hrep

/-- C1, amended, at concrete inputs: a record of type `transfer` placed between the Coffee
and the Salary record leaves the three totals as they are without it; and on the scenario
collection no sum needs rounding, so the totals are the exact ones. -/
theorem C1_updateBalance_totals_witness :
    transferRecord.type ≠ "income" ∧ transferRecord.type ≠ "expense" ∧
    updateBalance ([coffeeRecord] ++ transferRecord :: [salaryRecord]) =
      updateBalance ([coffeeRecord] ++ [salaryRecord]) ∧
    sumsExactlyFrom 0 (amountsOfType "income" [coffeeRecord, salaryRecord]) = true ∧
    sumsExactlyFrom 0 (amountsOfType "expense" [coffeeRecord, salaryRecord]) = true ∧
    (updateBalance [coffeeRecord, salaryRecord]).income =
      .fin (sumOfType "income" [coffeeRecord, salaryRecord]) ∧
    (updateBalance [coffeeRecord, salaryRecord]).balance =
      .fin (sumOfType "income" [coffeeRecord, salaryRecord] -
        sumOfType "expense" [coffeeRecord, salaryRecord]) :=
  ⟨by decide, by decide,
    C1_updateBalance_totals.2.2.2.1 [coffeeRecord] [salaryRecord] transferRecord
      (by decide) (by decide),
    by decide!, by decide!,
    (C1_updateBalance_totals.2.2.2.2 [coffeeRecord, salaryRecord] (by decide!)
      (by decide!)).1,
    (C1_updateBalance_totals.2.2.2.2 [coffeeRecord, salaryRecord] (by decide!)
      (by decide!)).2.2 (by decide!)⟩


/-! ## Theorems for claim C2 -/

/-- C2: for every collection, type filter and search term, the list that
`renderTransactions` shows is the collection filtered, in its original order, by: the filter
is `all` or the type equals it, and the term is empty or the lower-cased description or
category contains the lower-cased term; it is a sublist of the collection; and on the Coffee
and Salary records, filter `expense` with term `cof` yields only the Coffee record. -/
theorem C2_renderTransactions_selection :
    (∀ (lower : String → String) (ts : List Transaction) (typeFilter searchTerm : String),
      renderTransactions lower ts typeFilter searchTerm =
          ts.filter (fun t => decide (Selected lower typeFilter searchTerm t)) ∧
      List.Sublist (renderTransactions lower ts typeFilter searchTerm) ts ∧
      (∀ t, t ∈ renderTransactions lower ts typeFilter searchTerm ↔
          t ∈ ts ∧ Selected lower typeFilter searchTerm t)) ∧
    renderTransactions asciiToLowerCase [coffeeRecord, salaryRecord] "expense" "cof" =
      [coffeeRecord] := by
  have key : ∀ (lower : String → String) (ts : List Transaction) (typeFilter searchTerm : String),
      renderTransactions lower ts typeFilter searchTerm =
        ts.filter (fun t => decide (Selected lower typeFilter searchTerm t)) := by
    intro lower ts typeFilter searchTerm
    unfold renderTransactions
    by_cases hf : typeFilter = "all" <;> by_cases hq : searchTerm = "" <;>
      simp [hf, hq, Selected, List.filter_filter] <;>
      (congr 1; try (funext t; rw [Bool.eq_iff_iff]; simp [includes_iff, and_comm]))
  refine ⟨fun lower ts typeFilter searchTerm => ⟨key _ _ _ _, ?_, ?_⟩, ?_⟩
  · rw [key]
    exact List.filter_sublist _
  · intro t
    rw [key]
    simp
  · have h1 : (coffeeRecord.type == "expense") = true := by decide
    have h2 : (salaryRecord.type == "expense") = false := by decide
    have h3 : includes (asciiToLowerCase coffeeRecord.description) (asciiToLowerCase "cof")
        = true := by decide
    have h4 : ("expense" != "all") = true := by decide
    have h5 : ("cof" != "") = true := by decide
    simp [renderTransactions, List.filter, h1, h2, h3, h4, h5]


/-! ## Lemmas on `updateCategoryStats` -/

theorem jsLe_refl (a : JSNumber) : a.le a :=
  Or.inr ⟨rfl, le_rfl⟩

theorem mem_firstOccurrences (l : List String) (c : String) :
    c ∈ firstOccurrences l ↔ c ∈ l := by
  induction l with
  | nil => simp [firstOccurrences]
  | cons a l ih =>
    simp only [firstOccurrences, List.mem_cons, List.mem_filter, ih]
    by_cases h : c = a <;> simp [h]

theorem nodup_firstOccurrences (l : List String) : (firstOccurrences l).Nodup := by
  induction l with
  | nil => simp [firstOccurrences]
  | cons a l ih =>
    simp only [firstOccurrences, List.nodup_cons, List.mem_filter]
    exact ⟨by simp, ih.filter _⟩

theorem firstOccurrences_snoc (l : List String) (a : String) :
    firstOccurrences (l ++ [a]) =
      if a ∈ l then firstOccurrences l else firstOccurrences l ++ [a] := by
  induction l with
  | nil => simp [firstOccurrences]
  | cons c l ih =>
    have e1 : firstOccurrences (c :: l ++ [a]) =
        c :: (firstOccurrences (l ++ [a])).filter (fun d => d ≠ c) := rfl
    have e2 : firstOccurrences (c :: l) =
        c :: (firstOccurrences l).filter (fun d => d ≠ c) := rfl
    rw [e1, e2, ih]
    by_cases hac : a = c
    · subst hac
      by_cases hal : a ∈ l <;> simp [hal, List.filter_append]
    · have hca : ¬ c = a := fun h => hac h.symm
      by_cases hal : a ∈ l <;> simp [hal, hac, List.filter_append]

theorem orZero_some (v : JSNumber) (hv : v ≠ .nan) : orZero (some v) = v := by
  cases v with
  | nan => exact absurd rfl hv
  | negInf => rfl
  | posInf => rfl
  | fin q =>
    unfold orZero
    by_cases h : q = 0 <;> simp [h]

theorem propGet_map (L : List String) (g : String → JSNumber) (k : String) :
    propGet (L.map (fun c => (c, g c))) k = if k ∈ L then some (g k) else none := by
  induction L with
  | nil => simp [propGet]
  | cons c L ih =>
    simp only [List.map_cons, propGet, ih, List.mem_cons]
    by_cases h : c = k
    · subst h; simp
    · have h' : ¬ k = c := fun e => h e.symm
      simp [h, h']

theorem propSet_map_of_not_mem (L : List String) (g : String → JSNumber) (k : String)
    (v : JSNumber) (hk : k ∉ L) :
    propSet (L.map (fun c => (c, g c))) k v = L.map (fun c => (c, g c)) ++ [(k, v)] := by
  induction L with
  | nil => simp [propSet]
  | cons c L ih =>
    simp only [List.mem_cons, not_or] at hk
    have h : ¬ c = k := fun e => hk.1 e.symm
    simp [propSet, h, ih hk.2]

theorem propSet_map_of_mem (L : List String) (g : String → JSNumber) (k : String)
    (v : JSNumber) (hnd : L.Nodup) (hk : k ∈ L) :
    propSet (L.map (fun c => (c, g c))) k v =
      L.map (fun c => (c, if c = k then v else g c)) := by
  induction L with
  | nil => simp at hk
  | cons c L ih =>
    rw [List.nodup_cons] at hnd
    by_cases h : c = k
    · subst h
      simp only [List.map_cons, propSet, beq_self_eq_true, if_true]
      congr 1
      apply List.map_congr_left
      intro d hd
      have : ¬ d = c := fun e => hnd.1 (e ▸ hd)
      simp [this]
    · have hk' : k ∈ L := by
        rcases List.mem_cons.1 hk with e | e
        · exact absurd e.symm h
        · exact e
      simp [propSet, h, ih hnd.2 hk']

theorem jsSum_snoc (l : List ℚ) (a : ℚ) : jsSum (l ++ [a]) = (jsSum l).add (.fin a) := by
  simp [jsSum, List.foldl_append]

theorem onGrid_zero : OnGrid 0 :=
  ⟨0, by simp⟩

theorem jsSum_regular (l : List ℚ) : (jsSum l).Regular := by
  induction l using List.reverseRecOn with
  | nil => exact Or.inr (Or.inr ⟨0, rfl, onGrid_zero⟩)
  | append_singleton l a ih =>
    rw [jsSum_snoc]
    exact add_fin_regular _ _ ih.ne_nan

theorem foldl_categoryTotals (E : List Transaction) :
    E.foldl (fun o t =>
        propSet o t.category ((orZero (propGet o t.category)).add (.fin t.amount))) [] =
      (firstOccurrences (E.map (fun t => t.category))).map
        (fun c => (c, jsSum ((E.filter (fun t => t.category = c)).map (fun t => t.amount)))) := by
  induction E using List.reverseRecOn with
  | nil => simp [firstOccurrences]
  | append_singleton l t ih =>
    rw [List.foldl_append, ih]
    simp only [List.foldl_cons, List.foldl_nil, List.map_append, List.map_cons, List.map_nil,
      firstOccurrences_snoc, propGet_map, mem_firstOccurrences]
    by_cases hmem : t.category ∈ l.map (fun t => t.category)
    · simp only [hmem, if_true]
      rw [orZero_some _ (jsSum_regular _).ne_nan,
        propSet_map_of_mem _ _ _ _ (nodup_firstOccurrences _)
          ((mem_firstOccurrences _ _).2 hmem)]
      apply List.map_congr_left
      intro c _
      by_cases hc : c = t.category
      · subst hc
        simp [List.filter_append, List.filter_cons, jsSum_snoc]
      · have hc' : ¬ t.category = c := fun e => hc e.symm
        simp [hc, hc', List.filter_append, List.filter_cons]
    · simp only [hmem, if_false, orZero]
      rw [propSet_map_of_not_mem _ _ _ _ (fun h => hmem ((mem_firstOccurrences _ _).1 h))]
      simp only [List.map_append, List.map_cons, List.map_nil]
      congr 1
      · apply List.map_congr_left
        intro c hc
        have hc' : ¬ t.category = c := by
          intro e
          exact hmem (e ▸ (mem_firstOccurrences _ _).1 hc)
        simp [hc', List.filter_append, List.filter_cons]
      · have : l.filter (fun t' => t'.category = t.category) = [] := by
          rw [List.filter_eq_nil_iff]
          intro t' ht'
          simp only [decide_eq_true_eq]
          intro e
          exact hmem (List.mem_map.2 ⟨t', ht', e⟩)
        simp [List.filter_append, List.filter_cons, this, jsSum]

theorem foldl_skip_proto (E : List Transaction) (o : CategoryTotals)
    (h : ∀ t ∈ E, t.category ≠ "__proto__") :
    E.foldl (fun o t =>
        if t.category == "__proto__" then o
        else propSet o t.category ((orZero (propGet o t.category)).add (.fin t.amount))) o =
      E.foldl (fun o t =>
        propSet o t.category ((orZero (propGet o t.category)).add (.fin t.amount))) o := by
  induction E generalizing o with
  | nil => rfl
  | cons t E ih =>
    have ht : (t.category == "__proto__") = false := by
      simpa using h t (List.mem_cons_self _ _)
    rw [List.foldl_cons, List.foldl_cons]
    simp only [ht, Bool.false_eq_true, if_false]
    exact ih _ (fun t' ht' => h t' (List.mem_cons_of_mem _ ht'))

theorem orderedInsert_congr_of_mem {α : Type} (r r' : α → α → Prop) [DecidableRel r]
    [DecidableRel r'] (a : α) (l : List α) (h : ∀ b ∈ l, r a b ↔ r' a b) :
    l.orderedInsert r a = l.orderedInsert r' a := by
  induction l with
  | nil => rfl
  | cons b l ih =>
    have hb := h b (List.mem_cons_self _ _)
    have ih' := ih (fun c hc => h c (List.mem_cons_of_mem _ hc))
    by_cases hab : r a b
    · simp [List.orderedInsert, hab, hb.1 hab]
    · have hab' : ¬ r' a b := fun e => hab (hb.2 e)
      simp [List.orderedInsert, hab, hab', ih']

theorem insertionSort_congr_of_mem {α : Type} (r r' : α → α → Prop) [DecidableRel r]
    [DecidableRel r'] (l : List α) (h : ∀ a ∈ l, ∀ b ∈ l, r a b ↔ r' a b) :
    l.insertionSort r = l.insertionSort r' := by
  induction l with
  | nil => rfl
  | cons a l ih =>
    have ih' := ih (fun x hx y hy =>
      h x (List.mem_cons_of_mem _ hx) y (List.mem_cons_of_mem _ hy))
    simp only [List.insertionSort, ih']
    apply orderedInsert_congr_of_mem
    intro b hb
    have hb' : b ∈ l := (List.perm_insertionSort r' l).subset hb
    exact h a (List.mem_cons_self _ _) b (List.mem_cons_of_mem _ hb')

theorem arraySort_eq_sortByTotalDescending (l : List (String × JSNumber))
    (h : ∀ p ∈ l, p.2.Regular) :
    arraySort (fun a b => b.2.sub a.2) l = sortByTotalDescending l := by
  unfold arraySort sortByTotalDescending
  apply insertionSort_congr_of_mem
  intro a ha b hb
  have := isPositive_sub_iff a.2 b.2 (h a ha) (h b hb)
  constructor
  · intro hf
    by_contra hcon
    rw [this.2 hcon] at hf
    exact Bool.noConfusion hf
  · intro hle
    cases hp : (b.2.sub a.2).isPositive with
    | false => rfl
    | true => exact absurd hle (this.1 hp)

theorem sortByTotalDescending_perm (l : List (String × JSNumber)) :
    (sortByTotalDescending l).Perm l :=
  List.perm_insertionSort _ l

theorem sortByTotalDescending_sorted (l : List (String × JSNumber)) :
    (sortByTotalDescending l).Sorted (fun a b => b.2.le a.2) :=
  List.sorted_insertionSort _ l

theorem filter_orderedInsert_total (v : JSNumber) (a : String × JSNumber)
    (s : List (String × JSNumber)) :
    (s.orderedInsert (fun a b => b.2.le a.2) a).filter (fun p => p.2 = v) =
      if a.2 = v then a :: s.filter (fun p => p.2 = v) else s.filter (fun p => p.2 = v) := by
  induction s with
  | nil => by_cases h : a.2 = v <;> simp [h]
  | cons b s ih =>
    by_cases hab : b.2.le a.2
    · have e : (b :: s).orderedInsert (fun a b => b.2.le a.2) a = a :: b :: s := by
        simp [List.orderedInsert, hab]
      rw [e]
      by_cases h : a.2 = v <;> simp [List.filter_cons, h]
    · have e : (b :: s).orderedInsert (fun a b => b.2.le a.2) a =
          b :: s.orderedInsert (fun a b => b.2.le a.2) a := by
        simp [List.orderedInsert, hab]
      rw [e]
      simp only [List.filter_cons, ih]
      by_cases h : a.2 = v
      · have hb : ¬ b.2 = v := by
          intro e
          apply hab
          rw [h, e]
          exact jsLe_refl v
        simp [h, hb]
      · by_cases hb : b.2 = v <;> simp [h, hb]

theorem sortByTotalDescending_stable (l : List (String × JSNumber)) (v : JSNumber) :
    (sortByTotalDescending l).filter (fun p => p.2 = v) = l.filter (fun p => p.2 = v) := by
  induction l with
  | nil => rfl
  | cons a l ih =>
    have e : sortByTotalDescending (a :: l) =
        (sortByTotalDescending l).orderedInsert (fun a b => b.2.le a.2) a := rfl
    rw [e, filter_orderedInsert_total, ih]
    by_cases h : a.2 = v <;> simp [h, List.filter_cons]

theorem entries_perm (o : CategoryTotals) : (Object.entries o).Perm o := by
  unfold Object.entries
  have h1 : ((o.filterMap (fun e => (arrayIndex? e.1).map (fun n => (n, e)))).insertionSort
      (fun a b => a.1 ≤ b.1)).map (fun ne => ne.2) |>.Perm
      (o.filter (fun e => (arrayIndex? e.1).isSome)) := by
    refine ((List.perm_insertionSort _ _).map _).trans ?_
    apply List.Perm.of_eq
    induction o with
    | nil => rfl
    | cons e o ih =>
      cases h : arrayIndex? e.1 <;> simp [List.filterMap_cons, List.filter_cons, h, ih]
  refine (h1.append_right _).trans ?_
  have := List.filter_append_perm (fun e : String × JSNumber => (arrayIndex? e.1).isSome) o
  refine List.Perm.trans (List.Perm.of_eq ?_) this
  congr 1
  apply List.filter_congr
  intro e _
  cases arrayIndex? e.1 <;> rfl

theorem entries_of_no_index (o : CategoryTotals)
    (h : ∀ e ∈ o, arrayIndex? e.1 = none) : Object.entries o = o := by
  unfold Object.entries
  have h1 : o.filterMap (fun e => (arrayIndex? e.1).map (fun n => (n, e))) = [] := by
    rw [List.filterMap_eq_nil_iff]
    intro e he
    simp [h e he]
  have h2 : o.filter (fun e => (arrayIndex? e.1).isNone) = o := by
    rw [List.filter_eq_self]
    intro e he
    simp [h e he]
  simp [h1, h2]

theorem foldl_expenses_eq_categoryGroups (ts : List Transaction) (h : PlainCategories ts) :
    (ts.filter (fun t => t.type == "expense")).foldl
      (fun o t =>
        if t.category == "__proto__" then o
        else propSet o t.category ((orZero (propGet o t.category)).add (.fin t.amount))) [] =
      categoryGroups ts := by
  rw [foldl_skip_proto, foldl_categoryTotals]
  · unfold categoryGroups expenseCategories categoryExpenseTotal categoryAmounts
    have e : (fun t : Transaction => t.type == "expense") =
        (fun t : Transaction => decide (t.type = "expense")) := rfl
    rw [e]
    apply List.map_congr_left
    intro c _
    rw [List.filter_filter]
    congr 4
    funext t
    rw [Bool.eq_iff_iff]
    simp [and_comm]
  · intro t ht
    rw [List.mem_filter] at ht
    intro e
    apply h t ht.1 (by simpa using ht.2)
    rw [e]
    decide

theorem mem_categoryGroups (ts : List Transaction) (p : String × JSNumber) :
    p ∈ categoryGroups ts ↔ p.1 ∈ expenseCategories ts ∧ p.2 = categoryExpenseTotal ts p.1 := by
  unfold categoryGroups
  constructor
  · intro h
    obtain ⟨c, hc, rfl⟩ := List.mem_map.1 h
    exact ⟨hc, rfl⟩
  · rintro ⟨h1, h2⟩
    exact List.mem_map.2 ⟨p.1, h1, by rw [← h2]⟩

theorem categoryGroups_regular (ts : List Transaction) (p : String × JSNumber)
    (hp : p ∈ categoryGroups ts) : p.2.Regular := by
  rw [((mem_categoryGroups ts p).1 hp).2]
  exact jsSum_regular _

theorem updateCategoryStats_eq (ts : List Transaction) (h : PlainCategories ts) :
    updateCategoryStats ts =
      (sortByTotalDescending (Object.entries (categoryGroups ts))).take 6 := by
  unfold updateCategoryStats
  simp only [foldl_expenses_eq_categoryGroups ts h]
  rw [arraySort_eq_sortByTotalDescending _
    (fun p hp => categoryGroups_regular ts p ((entries_perm _).subset hp))]
  by_cases h0 : Object.entries (categoryGroups ts) = []
  · simp [Object.keys, h0, sortByTotalDescending]
  · simp [Object.keys, h0]

theorem mem_updateCategoryStats (ts : List Transaction) (h : PlainCategories ts)
    (p : String × JSNumber) (hp : p ∈ updateCategoryStats ts) : p ∈ categoryGroups ts := by
  rw [updateCategoryStats_eq ts h] at hp
  exact (entries_perm _).subset ((sortByTotalDescending_perm _).subset (List.mem_of_mem_take hp))

theorem mem_expenseCategories (ts : List Transaction) (c : String) :
    c ∈ expenseCategories ts ↔ ∃ t ∈ ts, t.type = "expense" ∧ t.category = c := by
  unfold expenseCategories
  rw [mem_firstOccurrences]
  simp [and_assoc]

theorem omitted_le_listed (ts : List Transaction) (h : PlainCategories ts) (c : String)
    (hc : c ∈ expenseCategories ts) (hout : c ∉ (updateCategoryStats ts).map Prod.fst)
    (p : String × JSNumber) (hp : p ∈ updateCategoryStats ts) :
    (categoryExpenseTotal ts c).le p.2 := by
  rw [updateCategoryStats_eq ts h] at hout hp
  set s := sortByTotalDescending (Object.entries (categoryGroups ts)) with hs
  have hmem : (c, categoryExpenseTotal ts c) ∈ s :=
    (sortByTotalDescending_perm _).symm.subset
      ((entries_perm _).symm.subset ((mem_categoryGroups ts _).2 ⟨hc, rfl⟩))
  have hsorted : s.Sorted (fun a b => b.2.le a.2) := sortByTotalDescending_sorted _
  rw [← List.take_append_drop 6 s] at hmem hsorted
  rcases List.mem_append.1 hmem with h' | h'
  · exact absurd (List.mem_map.2 ⟨_, h', rfl⟩) hout
  · exact (List.pairwise_append.1 hsorted).2.2 p hp _ h'


theorem minDouble_le_of_representable (a : ℚ) (ha : Representable a) (hpos : 0 < a) :
    minDouble ≤ a := by
  obtain ⟨n, hn⟩ := roundDouble_onGrid a a ha
  have hn1 : (1 : ℤ) ≤ n := by
    by_contra hcon
    have hle : (n : ℚ) ≤ 0 := by exact_mod_cast (by omega : n ≤ 0)
    have : a ≤ 0 := by
      rw [hn]
      exact mul_nonpos_of_nonpos_of_nonneg hle minDouble_pos.le
    linarith
  rw [hn]
  have : (1 : ℚ) ≤ n := by exact_mod_cast hn1
  calc minDouble = 1 * minDouble := (one_mul _).symm
    _ ≤ n * minDouble := mul_le_mul_of_nonneg_right this minDouble_pos.le

theorem jsSum_pos (l : List ℚ) (hne : l ≠ []) (h : ∀ a ∈ l, minDouble ≤ a) :
    jsSum l = .posInf ∨ ∃ r, jsSum l = .fin r ∧ minDouble ≤ r := by
  induction l using List.reverseRecOn with
  | nil => exact absurd rfl hne
  | append_singleton l a ih =>
    rw [jsSum_snoc]
    have ha : minDouble ≤ a := h a (by simp)
    by_cases hl : l = []
    · subst hl
      have : (jsSum []).add (.fin a) = roundDouble (0 + a) := rfl
      rw [this, zero_add]
      exact roundDouble_of_ge a ha
    · rcases ih hl (fun b hb => h b (by simp [hb])) with h1 | ⟨r, h1, hr⟩
      · rw [h1]
        exact Or.inl rfl
      · rw [h1]
        have : (JSNumber.fin r).add (.fin a) = roundDouble (r + a) := rfl
        rw [this]
        apply roundDouble_of_ge
        linarith [minDouble_pos]

theorem categoryExpenseTotal_pos (ts : List Transaction) (c : String)
    (hpos : ∀ t ∈ ts, t.type = "expense" → 0 < t.amount ∧ Representable t.amount)
    (hc : c ∈ expenseCategories ts) :
    (categoryExpenseTotal ts c).isPositive = true := by
  obtain ⟨t, ht, hty, hcat⟩ := (mem_expenseCategories ts c).1 hc
  have hne : categoryAmounts ts c ≠ [] := by
    intro hnil
    unfold categoryAmounts at hnil
    rw [List.map_eq_nil_iff] at hnil
    have : t ∈ ts.filter (fun t => t.type = "expense" ∧ t.category = c) := by
      rw [List.mem_filter]
      exact ⟨ht, by simp [hty, hcat]⟩
    rw [hnil] at this
    simp at this
  have hall : ∀ a ∈ categoryAmounts ts c, minDouble ≤ a := by
    intro a ha
    unfold categoryAmounts at ha
    obtain ⟨t', ht', rfl⟩ := List.mem_map.1 ha
    rw [List.mem_filter] at ht'
    have := hpos t' ht'.1 (of_decide_eq_true ht'.2).1
    exact minDouble_le_of_representable _ this.2 this.1
  unfold categoryExpenseTotal
  rcases jsSum_pos _ hne hall with h1 | ⟨r, h1, hr⟩
  · rw [h1]; rfl
  · rw [h1]
    simp only [JSNumber.isPositive, decide_eq_true_eq]
    exact lt_of_lt_of_le minDouble_pos hr

/-! ## Theorems for claims C3 and C4 -/

/-- C3, as stated, fails, in three ways.  For two expense records of equal amount with
categories `2` then `1`, `updateCategoryStats` lists `1` before `2` (the object enumerates
array-index names in numeric order), not in first-occurrence order.  For expenses 0.3,
0.2, 0.1 on `bills` then 0.1, 0.2, 0.3 on `food`, whose exact sums are equal, it lists
`food` (0.6000000000000001) before `bills` (0.6).  For an expense of 1 on `food` and one of
100 on the category `__proto__`, it lists `food` only: the omitted category has the greater
total. -/
theorem C3_counterexample_index_named_categories :
    updateCategoryStats indexNamedRecords = [("1", .fin 5), ("2", .fin 5)] ∧
    exactCategoryRanking indexNamedRecords = [("2", 5), ("1", 5)] ∧
    (updateCategoryStats tiedExpenses).map Prod.fst = ["food", "bills"] ∧
    (exactCategoryRanking tiedExpenses).map Prod.fst = ["bills", "food"] ∧
    exactCategoryTotal tiedExpenses "food" = exactCategoryTotal tiedExpenses "bills" ∧
    updateCategoryStats protoNamedRecords = [("food", .fin 1)] ∧
    exactCategoryRanking protoNamedRecords = [("__proto__", 100), ("food", 1)] := by
  decide!

/-- C3, amended: for every collection none of whose expense categories is named like an
inherited property of `Object.prototype`, `updateCategoryStats` groups the expense records
by category, sums each group as JavaScript adds (from 0, left to right, in doubles), orders
the pairs by total descending, equal totals keeping the order in which `Object.entries`
lists the categories, and keeps the first six; when no expense category is an array-index
name this is the ranking with ties in first-occurrence order.  Each listed total is the
double sum of the expense amounts of its category (the exact sum when no partial sum needs
rounding), and no omitted category has a total greater than a listed one.  The ordering
used is a permutation, descending, and leaves pairs of equal total in their relative order;
`Object.entries` only permutes the properties. -/
theorem C3_categoryRanking (ts : List Transaction) (h : PlainCategories ts) :
    updateCategoryStats ts =
      (sortByTotalDescending (Object.entries (categoryGroups ts))).take 6 ∧
    ((∀ t ∈ ts, t.type = "expense" → arrayIndex? t.category = none) →
      updateCategoryStats ts = categoryRanking ts) ∧
    (∀ p ∈ updateCategoryStats ts,
      p.1 ∈ expenseCategories ts ∧ p.2 = categoryExpenseTotal ts p.1) ∧
    (∀ c ∈ expenseCategories ts, c ∉ (updateCategoryStats ts).map Prod.fst →
      ∀ p ∈ updateCategoryStats ts, (categoryExpenseTotal ts c).le p.2) ∧
    (∀ c : String, sumsExactlyFrom 0 (categoryAmounts ts c) = true →
      categoryExpenseTotal ts c = .fin (exactCategoryTotal ts c)) ∧
    (∀ l : List (String × JSNumber),
      (sortByTotalDescending l).Perm l ∧
      (sortByTotalDescending l).Sorted (fun a b => b.2.le a.2) ∧
      ∀ v : JSNumber, (sortByTotalDescending l).filter (fun p => p.2 = v) =
        l.filter (fun p => p.2 = v)) ∧
    (∀ o : CategoryTotals, (Object.entries o).Perm o) := by
  refine ⟨updateCategoryStats_eq ts h, ?_, ?_, ?_, ?_, fun l =>
    ⟨sortByTotalDescending_perm l, sortByTotalDescending_sorted l,
      sortByTotalDescending_stable l⟩, entries_perm⟩
  · intro hidx
    rw [updateCategoryStats_eq ts h, categoryRanking, entries_of_no_index]
    intro e he
    obtain ⟨t, ht, hty, hcat⟩ := (mem_expenseCategories ts e.1).1
      ((mem_categoryGroups ts e).1 he).1
    rw [← hcat]
    exact hidx t ht hty
  · intro p hp
    exact (mem_categoryGroups ts p).1 (mem_updateCategoryStats ts h p hp)
  · intro c hc hout p hp
    exact omitted_le_listed ts h c hc hout p hp
  · intro c hc
    exact jsSum_of_exact _ hc

/-- C3, amended, on the sample ledger (seven expense categories, none an inherited or an
array-index name, `food` and `bills` tied at 8, no sum needing rounding): the code's
ranking is the specification's, the `food` total is the exact sum 8, and the omitted
category `other` has a total no greater than the listed `health`. -/
theorem C3_categoryRanking_witness :
    PlainCategories sampleLedger ∧
    (∀ t ∈ sampleLedger, t.type = "expense" → arrayIndex? t.category = none) ∧
    updateCategoryStats sampleLedger = categoryRanking sampleLedger ∧
    updateCategoryStats sampleLedger =
      [("shopping", .fin 9), ("food", .fin 8), ("bills", .fin 8), ("transport", .fin 7),
        ("entertainment", .fin 4), ("health", .fin 2)] ∧
    sumsExactlyFrom 0 (categoryAmounts sampleLedger "food") = true ∧
    categoryExpenseTotal sampleLedger "food" = .fin (exactCategoryTotal sampleLedger "food") ∧
    "other" ∈ expenseCategories sampleLedger ∧
    "other" ∉ (updateCategoryStats sampleLedger).map Prod.fst ∧
    (categoryExpenseTotal sampleLedger "other").le (("health", .fin 2) : String × JSNumber).2 :=
  ⟨by decide!, by decide!, (C3_categoryRanking sampleLedger (by decide!)).2.1 (by decide!),
    by decide!, by decide!,
    (C3_categoryRanking sampleLedger (by decide!)).2.2.2.2.1 "food" (by decide!),
    by decide!, by decide!,
    (C3_categoryRanking sampleLedger (by decide!)).2.2.2.1 "other" (by decide!) (by decide!)
      ("health", .fin 2) (by decide!)⟩

/-- C4, as stated, fails: on a collection holding one expense record of amount zero the
ranking lists its category, whose expense total is zero. -/
theorem C4_counterexample_zero_amount :
    updateCategoryStats zeroAmountRecords = [("food", .fin 0)] ∧
    categoryExpenseTotal zeroAmountRecords "food" = .fin 0 ∧
    exactCategoryTotal zeroAmountRecords "food" = 0 := by
  decide!

/-- C4, amended: for every collection none of whose expense categories is named like an
inherited property of `Object.prototype`, the ranking has at most 6 entries, its totals
never increase from one entry to the next and none is `NaN`, and it lists no category
without an expense record; when every expense amount is a positive double (as
`addTransaction` and `saveEdit` store them), every listed total is positive, so no listed
category has expense total zero. -/
theorem C4_ranking_bounds (ts : List Transaction) (h : PlainCategories ts) :
    (updateCategoryStats ts).length ≤ 6 ∧
    ((updateCategoryStats ts).map Prod.snd).Sorted (fun a b => b.le a) ∧
    (∀ p ∈ updateCategoryStats ts, p.2 ≠ .nan) ∧
    (∀ c : String, (∀ t ∈ ts, t.type = "expense" → t.category ≠ c) →
      c ∉ (updateCategoryStats ts).map Prod.fst) ∧
    ((∀ t ∈ ts, t.type = "expense" → 0 < t.amount ∧ Representable t.amount) →
      ∀ p ∈ updateCategoryStats ts,
        p.2.isPositive = true ∧ p.2 ≠ .fin 0 ∧ categoryExpenseTotal ts p.1 ≠ .fin 0) := by
  refine ⟨?_, ?_, ?_, ?_, ?_⟩
  · rw [updateCategoryStats_eq ts h]
    simp [List.length_take]
  · rw [updateCategoryStats_eq ts h]
    have h1 := (sortByTotalDescending_sorted (Object.entries (categoryGroups ts)))
    have h2 := List.Pairwise.sublist (List.take_sublist 6 _) h1
    exact List.pairwise_map.2 h2
  · intro p hp
    exact (categoryGroups_regular ts p (mem_updateCategoryStats ts h p hp)).ne_nan
  · intro c hc hmem
    obtain ⟨p, hp, rfl⟩ := List.mem_map.1 hmem
    have h1 := ((mem_categoryGroups ts p).1 (mem_updateCategoryStats ts h p hp)).1
    obtain ⟨t, ht, hty, hcat⟩ := (mem_expenseCategories ts p.1).1 h1
    exact hc t ht hty hcat
  · intro hpos p hp
    have h1 := (mem_categoryGroups ts p).1 (mem_updateCategoryStats ts h p hp)
    have h2 := categoryExpenseTotal_pos ts p.1 hpos h1.1
    have h3 : categoryExpenseTotal ts p.1 ≠ .fin 0 := by
      intro e
      rw [e] at h2
      exact absurd h2 (by decide)
    exact ⟨h1.2 ▸ h2, h1.2 ▸ h3, h3⟩

/-- C4, amended, on the sample ledger: no expense category is an inherited name, all
expense amounts are positive doubles, the ranking has at most 6 entries, all listed totals
are positive, and `salary`, which has no expense record, is not listed. -/
theorem C4_ranking_bounds_witness :
    PlainCategories sampleLedger ∧
    (∀ t ∈ sampleLedger, t.type = "expense" → 0 < t.amount ∧ Representable t.amount) ∧
    (updateCategoryStats sampleLedger).length ≤ 6 ∧
    (∀ p ∈ updateCategoryStats sampleLedger,
      p.2.isPositive = true ∧ p.2 ≠ .fin 0 ∧
        categoryExpenseTotal sampleLedger p.1 ≠ .fin 0) ∧
    "salary" ∉ (updateCategoryStats sampleLedger).map Prod.fst :=
  ⟨by decide!, by decide!, (C4_ranking_bounds sampleLedger (by decide!)).1,
    (C4_ranking_bounds sampleLedger (by decide!)).2.2.2.2 (by decide!),
    (C4_ranking_bounds sampleLedger (by decide!)).2.2.2.1 "salary" (by decide!)⟩

/-! ## Theorems for claims C5 to C11 -/

theorem addTransaction_of_not_accepted (s : State) (form : Form) (now : Int) (isoNow : String)
    (h : ¬ form.accepted) :
    addTransaction s form now isoNow = (s, .notified "Please fill in all fields" "error") := by
  unfold addTransaction
  cases ha : form.amount with
  | nan => rfl
  | fin a =>
    simp only
    rw [if_pos]
    simp only [Form.accepted, ha] at h
    simp only [Bool.or_eq_true, beq_iff_eq]
    by_contra hcon
    apply h
    simp only [not_or] at hcon
    refine ⟨hcon.1.1.1, by simp, ?_, hcon.1.2, hcon.2⟩
    intro e
    exact hcon.1.1.2 (JSNum.fin.inj e)

theorem addTransaction_of_accepted (s : State) (form : Form) (now : Int) (isoNow : String)
    (h : form.accepted) :
    addTransaction s form now isoNow =
      (saveToStorage { s with transactions :=
          { id := now, description := trim form.description, amount := form.magnitude,
            category := form.category, type := form.type, date := form.date,
            timestamp := isoNow } :: s.transactions },
        .notified "Transaction added successfully!" "success") := by
  unfold addTransaction Form.magnitude
  obtain ⟨h1, h2, h3, h4, h5⟩ := h
  cases ha : form.amount with
  | nan => exact absurd ha h2
  | fin a =>
    have ha0 : a ≠ 0 := fun e => h3 (by rw [ha, e])
    simp [h1, ha0, h4, h5]


theorem findIndex_eq_none {α : Type} (p : α → Bool) (l : List α) :
    findIndex p l = none ↔ ∀ x ∈ l, p x = false := by
  induction l with
  | nil => simp [findIndex]
  | cons a l ih =>
    by_cases h : p a
    · simp [findIndex, h]
    · simp [findIndex, h, ih]

theorem findIndex_eq_some {α : Type} (p : α → Bool) (l : List α) (i : Nat)
    (h : findIndex p l = some i) :
    ∃ pre old post, l = pre ++ old :: post ∧ pre.length = i ∧ p old = true ∧
      ∀ x ∈ pre, p x = false := by
  induction l generalizing i with
  | nil => simp [findIndex] at h
  | cons a l ih =>
    by_cases ha : p a
    · simp only [findIndex, ha, if_true, Option.some.injEq] at h
      exact ⟨[], a, l, rfl, by simpa using h, ha, by simp⟩
    · simp only [findIndex, ha, Bool.false_eq_true, if_false, Option.map_eq_some'] at h
      obtain ⟨j, hj, rfl⟩ := h
      obtain ⟨pre, old, post, hl, hlen, hold, hpre⟩ := ih j hj
      refine ⟨a :: pre, old, post, by rw [hl]; rfl, by simp [hlen], hold, ?_⟩
      intro x hx
      rcases List.mem_cons.1 hx with e | e
      · rw [e]; simpa using ha
      · exact hpre x e

theorem assignAt_append {α : Type} (f : α → α) (pre : List α) (old : α) (post : List α) :
    assignAt f pre.length (pre ++ old :: post) = pre ++ f old :: post := by
  induction pre with
  | nil => rfl
  | cons a pre ih => simp [assignAt, ih]


theorem saveEdit_of_accepted (s : State) (form : Form) (h : form.accepted) :
    saveEdit s form =
      match findIndex (fun t => some t.id == s.editingId) s.transactions with
      | none => (s, .silent)
      | some transactionIndex =>
        (closeModal (saveToStorage { s with transactions := (assignAt
            (fun old => { old with
              description := trim form.description
              amount := form.magnitude
              category := form.category
              type := form.type
              date := form.date })
            transactionIndex s.transactions) }),
          .notified "Transaction updated successfully!" "success") := by
  unfold saveEdit Form.magnitude
  obtain ⟨h1, h2, h3, h4, h5⟩ := h
  cases ha : form.amount with
  | nan => exact absurd ha h2
  | fin a =>
    have ha0 : a ≠ 0 := fun e => h3 (by rw [ha, e])
    simp [h1, ha0, h4, h5]

/-- C5, as stated, fails: the Coffee input with amount -4.5, a negative number, is accepted
by `addTransaction`: the record is stored and the success notification shown. -/
theorem C5_counterexample_negative_amount :
    coffeeForm.amount = .fin (-4.5) ∧
    (addTransaction emptyState coffeeForm 1704067260000 "2024-01-01T00:01:00.000Z").2 =
      .notified "Transaction added successfully!" "success" ∧
    (addTransaction emptyState coffeeForm 1704067260000
      "2024-01-01T00:01:00.000Z").1.transactions = [coffeeRecord] ∧
    (addTransaction emptyState coffeeForm 1704067260000
      "2024-01-01T00:01:00.000Z").1.transactions ≠ emptyState.transactions := by
  decide!

/-- C5, amended: for every collection and every add input in which the trimmed description,
the category or the date is empty, or the amount parses to `NaN` or to zero,
`addTransaction` shows the error notification and leaves the tracker, its collection and
the persisted copy exactly as they were; every other input, a negative amount included, is
accepted. -/
theorem C5_addTransaction_rejects (s : State) (form : Form) (now : Int) (isoNow : String) :
    ((trim form.description = "" ∨ form.category = "" ∨ form.date = "" ∨
        form.amount = .nan ∨ form.amount = .fin 0) →
      addTransaction s form now isoNow = (s, .notified "Please fill in all fields" "error") ∧
      (addTransaction s form now isoNow).1.transactions = s.transactions ∧
      (addTransaction s form now isoNow).1.storage = s.storage) ∧
    (¬ (trim form.description = "" ∨ form.category = "" ∨ form.date = "" ∨
        form.amount = .nan ∨ form.amount = .fin 0) →
      (addTransaction s form now isoNow).2 =
        .notified "Transaction added successfully!" "success") := by
  constructor
  · intro h
    have hna : ¬ form.accepted := by
      rintro ⟨h1, h2, h3, h4, h5⟩
      rcases h with h | h | h | h | h
      · exact h1 h
      · exact h4 h
      · exact h5 h
      · exact h2 h
      · exact h3 h
    rw [addTransaction_of_not_accepted s form now isoNow hna]
    exact ⟨rfl, rfl, rfl⟩
  · intro h
    simp only [not_or] at h
    rw [addTransaction_of_accepted s form now isoNow ⟨h.1, h.2.2.2.1, h.2.2.2.2, h.2.1, h.2.2.1⟩]

/-- C5, amended, at concrete inputs: a description of blanks only is rejected on the
scenario tracker, which stays as it was; the Salary input is accepted. -/
theorem C5_addTransaction_rejects_witness :
    trim blankForm.description = "" ∧
    addTransaction scenarioState blankForm 1704067320000 "2024-01-01T00:02:00.000Z" =
      (scenarioState, .notified "Please fill in all fields" "error") ∧
    (addTransaction emptyState salaryForm 1704067200000 "2024-01-01T00:00:00.000Z").2 =
      .notified "Transaction added successfully!" "success" :=
  ⟨by decide,
    ((C5_addTransaction_rejects scenarioState blankForm 1704067320000
      "2024-01-01T00:02:00.000Z").1 (Or.inl (by decide))).1,
    (C5_addTransaction_rejects emptyState salaryForm 1704067200000
      "2024-01-01T00:00:00.000Z").2 (by decide)⟩

/-- C6, as stated, fails: for the Coffee input typed as ` Coffee `, blanks around it, the
new record does not carry the given description but the trimmed one. -/
theorem C6_counterexample_padded_description :
    (addTransaction emptyState paddedCoffeeForm 1704067260000
      "2024-01-01T00:01:00.000Z").1.transactions = [coffeeRecord] ∧
    coffeeRecord.description = "Coffee" ∧
    paddedCoffeeForm.description = " Coffee " ∧
    coffeeRecord.description ≠ paddedCoffeeForm.description := by
  decide!

/-- C6, amended: for every collection and every add input that is accepted, the amount is
a number `a`, and the collection after `addTransaction` is the new record followed by the
old collection; the new record carries the clock value as id, the given description with
surrounding white space trimmed, the given category, type and date, and the amount `|a|`,
which is positive; the persisted copy is the new collection.  In the scenario (Salary 3000
income, then Coffee -4.5 expense) the stored Coffee amount is 4.5 and the totals are
income 3000, expenses 4.5, balance 2995.5. -/
theorem C6_addTransaction_prepends :
    (∀ (s : State) (form : Form) (now : Int) (isoNow : String),
      (addTransaction s form now isoNow).2 =
          .notified "Transaction added successfully!" "success" →
        ∃ a : ℚ, form.amount = .fin a ∧ 0 < |a| ∧
          (addTransaction s form now isoNow).1.transactions =
            { id := now, description := trim form.description, amount := |a|,
              category := form.category, type := form.type, date := form.date,
              timestamp := isoNow } :: s.transactions ∧
          (addTransaction s form now isoNow).1.storage =
            .text (.value (.arr (((addTransaction s form now isoNow).1.transactions).map
              Transaction.toJS)))) ∧
    scenarioState.transactions = [coffeeRecord, salaryRecord] ∧
    coffeeRecord.amount = 4.5 ∧
    updateBalance scenarioState.transactions =
      { income := .fin 3000, expenses := .fin 4.5, balance := .fin 2995.5 } := by
  refine ⟨?_, by decide!, by decide!, by decide!⟩
  intro s form now isoNow h
  by_cases hacc : form.accepted
  · rw [addTransaction_of_accepted s form now isoNow hacc]
    obtain ⟨h1, h2, h3, h4, h5⟩ := hacc
    cases ha : form.amount with
    | nan => exact absurd ha h2
    | fin a =>
      have ha0 : a ≠ 0 := fun e => h3 (by rw [ha, e])
      refine ⟨a, rfl, abs_pos.2 ha0, ?_, rfl⟩
      simp [saveToStorage, Form.magnitude, ha]
  · rw [addTransaction_of_not_accepted s form now isoNow hacc] at h
    simp at h

/-- C6, amended, on the second `add` of the scenario: the input is accepted and the
collection becomes the Coffee record followed by the Salary record. -/
theorem C6_addTransaction_prepends_witness :
    ∃ a : ℚ, coffeeForm.amount = .fin a ∧ 0 < |a| ∧
      (addTransaction
        (addTransaction emptyState salaryForm 1704067200000 "2024-01-01T00:00:00.000Z").1
        coffeeForm 1704067260000 "2024-01-01T00:01:00.000Z").1.transactions =
        { id := 1704067260000, description := trim coffeeForm.description, amount := |a|,
          category := coffeeForm.category, type := coffeeForm.type, date := coffeeForm.date,
          timestamp := "2024-01-01T00:01:00.000Z" } ::
          (addTransaction emptyState salaryForm 1704067200000
            "2024-01-01T00:00:00.000Z").1.transactions :=
  let ⟨a, h1, h2, h3, _⟩ := C6_addTransaction_prepends.1
    (addTransaction emptyState salaryForm 1704067200000 "2024-01-01T00:00:00.000Z").1
    coffeeForm 1704067260000 "2024-01-01T00:01:00.000Z" (by decide!)
  ⟨a, h1, h2, h3⟩


/-- C7, as stated, fails: saving the edit of the Salary record with the description typed as
` Coffee `, blanks around it, stores the trimmed description, not the given one; and with
no record carrying the edited id, `saveEdit` shows no notification at all. -/
theorem C7_counterexample_padded_description :
    editingSalaryState.editingId = some 1704067200000 ∧
    ((saveEdit editingSalaryState paddedCoffeeForm).1.transactions.map
      (fun t => t.description)) = ["Coffee", "Coffee"] ∧
    paddedCoffeeForm.description = " Coffee " ∧
    "Coffee" ≠ paddedCoffeeForm.description ∧
    (saveEdit scenarioState coffeeForm).2 = .silent := by
  decide!

/-- C7, amended: for every tracker and every accepted form: if no record has the id being
edited, `saveEdit` returns without a notification and leaves the tracker, its collection
and the persisted copy unchanged; otherwise the collection keeps its length and order, the
first record with that id keeps its position, id and creation timestamp and gets the
trimmed description, the absolute value of the amount, and the category, type and date of
the form, every other record is unchanged, and the new collection is persisted. -/
theorem C7_saveEdit_frame (s : State) (form : Form) (h : form.accepted) :
    ((∀ t ∈ s.transactions, some t.id ≠ s.editingId) →
      saveEdit s form = (s, .silent) ∧
      (saveEdit s form).1.transactions = s.transactions ∧
      (saveEdit s form).1.storage = s.storage) ∧
    (∀ id : Int, s.editingId = some id → (∃ t ∈ s.transactions, t.id = id) →
      ∃ pre old post,
        s.transactions = pre ++ old :: post ∧ old.id = id ∧ (∀ t ∈ pre, t.id ≠ id) ∧
        (saveEdit s form).1.transactions =
          pre ++ { id := old.id, description := trim form.description,
                   amount := form.magnitude, category := form.category, type := form.type,
                   date := form.date, timestamp := old.timestamp } :: post ∧
        (saveEdit s form).1.transactions.length = s.transactions.length ∧
        (saveEdit s form).1.storage =
          .text (.value (.arr ((saveEdit s form).1.transactions.map Transaction.toJS))) ∧
        (saveEdit s form).2 = .notified "Transaction updated successfully!" "success") := by
  rw [saveEdit_of_accepted s form h]
  constructor
  · intro hnone
    have hfi : findIndex (fun t => some t.id == s.editingId) s.transactions = none := by
      rw [findIndex_eq_none]
      intro t ht
      simpa using hnone t ht
    rw [hfi]
    exact ⟨rfl, rfl, rfl⟩
  · intro id hid hex
    cases hfi : findIndex (fun t => some t.id == s.editingId) s.transactions with
    | none =>
      rw [findIndex_eq_none] at hfi
      obtain ⟨t, ht, hte⟩ := hex
      have := hfi t ht
      simp [hid, hte] at this
    | some i =>
      obtain ⟨pre, old, post, hl, hlen, hold, hpre⟩ := findIndex_eq_some _ _ _ hfi
      have hold' : old.id = id := by simpa [hid] using hold
      refine ⟨pre, old, post, hl, hold', ?_, ?_, ?_, rfl, rfl⟩
      · intro t ht
        simpa [hid] using hpre t ht
      · simp only [closeModal, saveToStorage]
        rw [hl, ← hlen, assignAt_append]
      · simp only [closeModal, saveToStorage]
        rw [hl, ← hlen, assignAt_append]
        simp

/-- C7, amended, at concrete inputs: with no edit in progress `saveEdit` leaves the scenario
tracker as it is; with the edit dialog open on the Salary record, the second record of the
collection is replaced in place and the first is untouched. -/
theorem C7_saveEdit_frame_witness :
    coffeeForm.accepted ∧
    saveEdit scenarioState coffeeForm = (scenarioState, .silent) ∧
    (∃ pre old post,
      editingSalaryState.transactions = pre ++ old :: post ∧ old.id = 1704067200000 ∧
      (∀ t ∈ pre, t.id ≠ 1704067200000) ∧
      (saveEdit editingSalaryState coffeeForm).1.transactions =
        pre ++ { id := old.id, description := trim coffeeForm.description,
                 amount := coffeeForm.magnitude, category := coffeeForm.category,
                 type := coffeeForm.type, date := coffeeForm.date,
                 timestamp := old.timestamp } :: post) :=
  ⟨by decide!,
    ((C7_saveEdit_frame scenarioState coffeeForm (by decide!)).1 (by decide!)).1,
    let ⟨pre, old, post, h1, h2, h3, h4, _⟩ :=
      (C7_saveEdit_frame editingSalaryState coffeeForm (by decide!)).2 1704067200000
        (by decide!) (by decide!)
    ⟨pre, old, post, h1, h2, h3, h4⟩⟩

/-- C8, as stated, fails: on the scenario tracker, the second `deleteTransaction` of the
Salary id does not return NotFound: like the first it ends with the notification
"Transaction deleted successfully!"; and on a collection where two records carry the id,
the first call removes both, so the size drops by two. -/
theorem C8_counterexample_second_delete_reports_success :
    (deleteTransaction (deleteTransaction scenarioState 1704067200000 true).1
      1704067200000 true).2 = .notified "Transaction deleted successfully!" "success" ∧
    (deleteTransaction (deleteTransaction scenarioState 1704067200000 true).1
      1704067200000 true).2 = (deleteTransaction scenarioState 1704067200000 true).2 ∧
    duplicateIdState.transactions.length = 2 ∧
    (deleteTransaction (deleteTransaction duplicateIdState 1704067200000 true).1
      1704067200000 true).1.transactions.length = 0 := by
  decide!

/-- C8, amended: for every tracker and id, two confirmed calls of `deleteTransaction` in a
row: the first removes every record with that id and keeps all other records in order and
persists the result; the second changes nothing and ends, like the first, with the success
notification; the size after both calls is the size before minus the number of records with
that id, so exactly one less when a record has the id and ids are pairwise distinct. -/
theorem C8_deleteTransaction_twice (s : State) (id : Int) :
    (deleteTransaction s id true).1.transactions =
      s.transactions.filter (fun t => t.id ≠ id) ∧
    (deleteTransaction s id true).1.storage =
      .text (.value (.arr ((s.transactions.filter (fun t => t.id ≠ id)).map
        Transaction.toJS))) ∧
    (deleteTransaction s id true).2 =
      .notified "Transaction deleted successfully!" "success" ∧
    deleteTransaction (deleteTransaction s id true).1 id true =
      ((deleteTransaction s id true).1,
        .notified "Transaction deleted successfully!" "success") ∧
    (deleteTransaction (deleteTransaction s id true).1 id true).1.transactions.length +
        s.transactions.countP (fun t => t.id = id) = s.transactions.length ∧
    ((∃ t ∈ s.transactions, t.id = id) → (s.transactions.map (fun t => t.id)).Nodup →
      (deleteTransaction (deleteTransaction s id true).1 id true).1.transactions.length + 1 =
        s.transactions.length) := by
  have hf : (fun t : Transaction => t.id != id) = (fun t => decide (t.id ≠ id)) := by
    funext t
    rw [Bool.eq_iff_iff]
    simp
  have h2 : deleteTransaction (deleteTransaction s id true).1 id true =
      ((deleteTransaction s id true).1,
        .notified "Transaction deleted successfully!" "success") := by
    simp [deleteTransaction, saveToStorage, List.filter_filter]
  have hlen : (s.transactions.filter (fun t => t.id ≠ id)).length +
      s.transactions.countP (fun t => t.id = id) = s.transactions.length := by
    have := List.length_eq_countP_add_countP (fun t : Transaction => decide (t.id = id))
      s.transactions
    rw [this, List.countP_eq_length_filter, List.countP_eq_length_filter, add_comm]
    congr 3
    funext t
    simp
  have h1 : (deleteTransaction s id true).1.transactions =
      s.transactions.filter (fun t => t.id ≠ id) := by
    simp [deleteTransaction, saveToStorage, hf]
  refine ⟨h1, ?_, rfl, h2, ?_, ?_⟩
  · simp [deleteTransaction, saveToStorage, hf]
  · rw [h2, h1]
    exact hlen
  · intro hex hnd
    rw [h2, h1, ← hlen]
    congr 1
    obtain ⟨t, ht, hid⟩ := hex
    have hc : s.transactions.countP (fun t => t.id = id) =
        (s.transactions.map (fun t => t.id)).count id := by
      rw [List.count, List.countP_map]
      congr 1
    rw [hc]
    exact (List.count_eq_one_of_mem hnd (List.mem_map.2 ⟨t, ht, hid⟩)).symm

/-- C8, amended, on the scenario tracker: the Salary id occurs and ids are distinct, so two
deletions leave a collection exactly one record shorter. -/
theorem C8_deleteTransaction_twice_witness :
    (∃ t ∈ scenarioState.transactions, t.id = 1704067200000) ∧
    (scenarioState.transactions.map (fun t => t.id)).Nodup ∧
    (deleteTransaction (deleteTransaction scenarioState 1704067200000 true).1
      1704067200000 true).1.transactions.length + 1 = scenarioState.transactions.length :=
  ⟨by decide!, by decide!,
    (C8_deleteTransaction_twice scenarioState 1704067200000).2.2.2.2.2 (by decide!)
      (by decide!)⟩


/-- C9, as stated, fails: importing the array `[1]`, whose element is not a record, replaces
the collection of the scenario tracker by `[1]` and persists it, whether or not rendering
it completes. -/
theorem C9_counterexample_array_of_non_records :
    (¬ ∃ t : Transaction, JSValue.num 1 = t.toJS) ∧
    ∀ updateDisplayCompletes : JSValue → Bool,
      (importData updateDisplayCompletes scenarioState.toRaw
        (some (.value (.arr [.num 1])))).1.transactions = .arr [.num 1] ∧
      (importData updateDisplayCompletes scenarioState.toRaw
        (some (.value (.arr [.num 1])))).1.storage = .text (.value (.arr [.num 1])) ∧
      (importData updateDisplayCompletes scenarioState.toRaw
        (some (.value (.arr [.num 1])))).1.transactions ≠ scenarioState.toRaw.transactions := by
  refine ⟨?_, fun f => ?_⟩
  · rintro ⟨t, h⟩
    simp [Transaction.toJS] at h
  · have h1 : (importData f scenarioState.toRaw
        (some (.value (.arr [.num 1])))).1.transactions = .arr [.num 1] := by
      cases hf : f (.arr [.num 1]) <;> simp [importData, JSValue.isArray, hf]
    have h2 : (importData f scenarioState.toRaw
        (some (.value (.arr [.num 1])))).1.storage = .text (.value (.arr [.num 1])) := by
      cases hf : f (.arr [.num 1]) <;> simp [importData, JSValue.isArray, hf]
    refine ⟨h1, h2, ?_⟩
    rw [h1]
    have h3 : scenarioState.transactions = [coffeeRecord, salaryRecord] := by decide!
    simp [State.toRaw, h3]

/-- C9, amended: for every tracker and every imported payload: if the text is not
parseable, or parses to a value that is not an array, `importData` shows the format error
and leaves the tracker, its collection and the persisted copy unchanged; if it parses to an
array, whatever its elements, the collection becomes exactly that array and is persisted,
and the notification is the success one when rendering completes and the format error
otherwise. -/
theorem C9_importData_replaces_arrays (updateDisplayCompletes : JSValue → Bool)
    (s : RawState) :
    importData updateDisplayCompletes s (some .syntaxError) =
      (s, .notified "Error importing data. Please check the file format." "error") ∧
    (∀ v : JSValue, v.isArray = false →
      importData updateDisplayCompletes s (some (.value v)) =
        (s, .notified "Error importing data. Please check the file format." "error")) ∧
    (∀ xs : List JSValue,
      (importData updateDisplayCompletes s (some (.value (.arr xs)))).1.transactions =
        .arr xs ∧
      (importData updateDisplayCompletes s (some (.value (.arr xs)))).1.storage =
        .text (.value (.arr xs)) ∧
      (importData updateDisplayCompletes s (some (.value (.arr xs)))).2 =
        (if updateDisplayCompletes (.arr xs) then
          .notified "Data imported successfully!" "success"
        else .notified "Error importing data. Please check the file format." "error")) := by
  refine ⟨rfl, ?_, ?_⟩
  · intro v hv
    simp [importData, hv]
  · intro xs
    cases hf : updateDisplayCompletes (.arr xs) <;> simp [importData, JSValue.isArray, hf]

/-- C9, amended, at concrete payloads on the scenario tracker: the JSON string
`"not an array"` is refused and the tracker stays as it was. -/
theorem C9_importData_replaces_arrays_witness :
    (JSValue.str "not an array").isArray = false ∧
    importData (fun _ => true) scenarioState.toRaw
        (some (.value (.str "not an array"))) =
      (scenarioState.toRaw,
        .notified "Error importing data. Please check the file format." "error") :=
  ⟨rfl, (C9_importData_replaces_arrays (fun _ => true) scenarioState.toRaw).2.1
    (.str "not an array") rfl⟩

/-- C10: what the constructor does with the `transactions` slot.  On a text that
`JSON.parse` cannot parse it throws `SyntaxError` instead of starting with the empty
collection; on an absent slot the collection is empty; on a serialized collection the
collection is that one. -/
theorem C10_constructor_load :
    constructor (.text .syntaxError) = .error "SyntaxError" ∧
    (∃ s, constructor .absent = .ok s ∧ s.transactions = .arr []) ∧
    (∀ ts : List Transaction,
      ∃ s, constructor (.text (.value (.arr (ts.map Transaction.toJS)))) = .ok s ∧
        s.transactions = .arr (ts.map Transaction.toJS)) := by
  refine ⟨rfl, ⟨_, rfl, ?_⟩, fun ts => ⟨_, rfl, ?_⟩⟩
  · simp [JSValue.truthy]
  · simp [JSValue.truthy]


theorem assignAt_map_id (f : Transaction → Transaction) (hf : ∀ t, (f t).id = t.id)
    (i : Nat) (l : List Transaction) :
    (assignAt f i l).map (fun t => t.id) = l.map (fun t => t.id) := by
  induction l generalizing i with
  | nil => cases i <;> rfl
  | cons a l ih =>
    cases i with
    | zero => simp [assignAt, hf]
    | succ j => simp [assignAt, ih]

theorem saveEdit_map_id (s : State) (form : Form) :
    (saveEdit s form).1.transactions.map (fun t => t.id) =
      s.transactions.map (fun t => t.id) := by
  by_cases hacc : form.accepted
  · rw [saveEdit_of_accepted s form hacc]
    cases findIndex (fun t => some t.id == s.editingId) s.transactions with
    | none => rfl
    | some i =>
      simp only [closeModal, saveToStorage]
      apply assignAt_map_id
      intro t
      rfl
  · have hrej : saveEdit s form = (s, .notified "Please fill in all fields" "error") := by
      unfold saveEdit
      cases ha : form.amount with
      | nan => rfl
      | fin a =>
        simp only
        rw [if_pos]
        simp only [Form.accepted, ha] at hacc
        simp only [Bool.or_eq_true, beq_iff_eq]
        by_contra hcon
        apply hacc
        simp only [not_or] at hcon
        refine ⟨hcon.1.1.1, by simp, ?_, hcon.1.2, hcon.2⟩
        intro e
        exact hcon.1.1.2 (JSNum.fin.inj e)
    rw [hrej]

/-- C11, as stated, fails: on the scenario tracker, whose ids are pairwise distinct, a second
`add` at the clock value of the Coffee record (the same millisecond) is accepted and leaves
two records with the same id. -/
theorem C11_counterexample_same_millisecond :
    DistinctIds scenarioState.transactions ∧
    (addTransaction scenarioState salaryForm 1704067260000 "2024-01-01T00:01:00.000Z").2 =
      .notified "Transaction added successfully!" "success" ∧
    ((addTransaction scenarioState salaryForm 1704067260000
      "2024-01-01T00:01:00.000Z").1.transactions.map (fun t => t.id)) =
      [1704067260000, 1704067260000, 1704067200000] ∧
    ¬ DistinctIds (addTransaction scenarioState salaryForm 1704067260000
      "2024-01-01T00:01:00.000Z").1.transactions := by
  decide!

/-- C11, amended: starting from a collection whose ids are pairwise distinct, the ids are
still pairwise distinct after any `saveEdit`, `deleteTransaction` or
`clearAllTransactions`, and after an accepted `addTransaction` exactly when the clock value
it takes as id is carried by no record of the collection; in particular when the clock
value is greater than every id in the collection. -/
theorem C11_distinct_ids_preserved (s : State) (h : DistinctIds s.transactions) :
    (∀ (form : Form) (now : Int) (isoNow : String),
      (addTransaction s form now isoNow).2 =
          .notified "Transaction added successfully!" "success" →
        (DistinctIds (addTransaction s form now isoNow).1.transactions ↔
          ∀ t ∈ s.transactions, t.id ≠ now) ∧
        ((∀ t ∈ s.transactions, t.id < now) →
          DistinctIds (addTransaction s form now isoNow).1.transactions)) ∧
    (∀ form : Form, DistinctIds (saveEdit s form).1.transactions) ∧
    (∀ (id : Int) (confirmed : Bool),
      DistinctIds (deleteTransaction s id confirmed).1.transactions) ∧
    (∀ confirmed : Bool, DistinctIds (clearAllTransactions s confirmed).1.transactions) := by
  refine ⟨?_, ?_, ?_, ?_⟩
  · intro form now isoNow hok
    have hacc : form.accepted := by
      by_contra hna
      rw [addTransaction_of_not_accepted s form now isoNow hna] at hok
      simp at hok
    have hiff : DistinctIds (addTransaction s form now isoNow).1.transactions ↔
        ∀ t ∈ s.transactions, t.id ≠ now := by
      rw [addTransaction_of_accepted s form now isoNow hacc]
      unfold DistinctIds at h ⊢
      simp only [saveToStorage, List.map_cons, List.nodup_cons, List.mem_map, not_exists,
        not_and]
      constructor
      · intro hnd t ht
        exact hnd.1 t ht
      · intro hne
        exact ⟨hne, h⟩
    refine ⟨hiff, fun hlt => hiff.2 (fun t ht => ne_of_lt (hlt t ht))⟩
  · intro form
    unfold DistinctIds
    rw [saveEdit_map_id]
    exact h
  · intro id confirmed
    unfold DistinctIds at h ⊢
    cases confirmed with
    | false => exact h
    | true =>
      simp only [deleteTransaction, if_true, saveToStorage]
      exact (h.sublist ((List.filter_sublist _).map _))
  · intro confirmed
    unfold DistinctIds
    cases confirmed <;> simp [clearAllTransactions, saveToStorage]
    exact h

/-- C11, amended, on the scenario tracker: its ids are pairwise distinct, an `add` at a
later clock value is accepted and keeps them distinct, and so do an edit, a deletion and a
clear. -/
theorem C11_distinct_ids_preserved_witness :
    DistinctIds scenarioState.transactions ∧
    (∀ t ∈ scenarioState.transactions, t.id < 1704067320000) ∧
    DistinctIds (addTransaction scenarioState coffeeForm 1704067320000
      "2024-01-01T00:02:00.000Z").1.transactions ∧
    DistinctIds (saveEdit editingSalaryState coffeeForm).1.transactions ∧
    DistinctIds (deleteTransaction scenarioState 1704067200000 true).1.transactions ∧
    DistinctIds (clearAllTransactions scenarioState true).1.transactions :=
  ⟨by decide!, by decide!,
    ((C11_distinct_ids_preserved scenarioState (by decide!)).1 coffeeForm 1704067320000
      "2024-01-01T00:02:00.000Z" (by decide!)).2 (by decide!),
    (C11_distinct_ids_preserved editingSalaryState (by decide!)).2.1 coffeeForm,
    (C11_distinct_ids_preserved scenarioState (by decide!)).2.2.1 1704067200000 true,
    (C11_distinct_ids_preserved scenarioState (by decide!)).2.2.2 true⟩

end ExpenseTracker
